import Mathlib

/-!
# Verification of the wallet-watcher per-block PnL engine

A shallow embedding of the Rust sources (`src/balance_changes.rs`,
`src/processor.rs`, `src/config.rs`, `src/utils.rs`) of the
`fuzzland/wallet-watcher` repository, together with proofs about the
embedded definitions.

Modelling conventions:
* 20-byte addresses are modelled as `Nat`; the zero address is `0`.
* `U256` values are modelled as `Nat` and `I256` values as `Int`.
  Per the specification (§3), 256-bit overflow is a fatal error and is
  "not expected in honest traces"; wrap-around of 256-bit arithmetic is
  therefore not modelled.  The *reinterpretation* casts
  (`I256::from_raw`, `I256::into_raw`) are modelled explicitly with
  two's-complement arithmetic, and the `u128` subtraction in
  `calculate_builder_reward`, which can genuinely underflow (panic), is
  modelled as a fallible (`Option`) computation.
* Rust's `HashMap` is modelled as an association list with
  first-occurrence lookup, in-place update of the first occurrence, and
  append-at-end insertion of fresh keys.  All maps built by the code
  have pairwise distinct keys, so this is faithful up to the (anyway
  unspecified) iteration order of `HashMap`.
* Fallible Rust code (`eyre::Result`, plus `panic!`/`expect`/`unwrap`)
  is modelled with `Except String` / `Option`.
-/

namespace WalletWatcher

/-- A 20-byte account / token identifier (`alloy::primitives::Address`). -/
abbrev Address := Nat

/-- `config.rs`: `pub const NATIVE_TOKEN: Address = Address::ZERO`. -/
def NATIVE_TOKEN : Address := 0

/-- `2 ^ 256`, the modulus of the 256-bit machine integers. -/
def TWO256 : Nat := 2 ^ 256

/-- `2 ^ 255`, the sign threshold of `I256`. -/
def TWO255 : Nat := 2 ^ 255

/-- `I256::from_raw`: reinterpret the bits of a `U256` as a
two's-complement signed 256-bit integer. -/
def i256fromRaw (v : Nat) : Int :=
  if v % TWO256 < TWO255 then ((v % TWO256 : Nat) : Int)
  else ((v % TWO256 : Nat) : Int) - (TWO256 : Int)

/-- `I256::into_raw`: the two's-complement bit pattern of a signed
256-bit integer, as an unsigned value. -/
def i256intoRaw (x : Int) : Nat :=
  (x % (TWO256 : Int)).toNat

/-! ## Balance sheets (`balance_changes.rs`)

`BalanceChange` is the Rust `HashMap<Address, I256>` (token → signed
delta); `BalanceChanges` is `HashMap<Address, BalanceChange>`
(account → token → signed delta). -/

/-- Token → signed balance delta (`BalanceChange`). -/
abbrev BalanceChange := List (Address × Int)

/-- Account → `BalanceChange` (`BalanceChanges`). -/
abbrev BalanceChanges := List (Address × BalanceChange)

/-- First-occurrence lookup, the model of `HashMap::get`. -/
def lookupTok : BalanceChange → Address → Option Int
  | [], _ => none
  | (t, x) :: rest, token => if t = token then some x else lookupTok rest token

/-- Lookup with the `HashMap` zero default used by `entry().or_insert`. -/
def lookupTokD (bc : BalanceChange) (token : Address) : Int :=
  (lookupTok bc token).getD 0

/-- First-occurrence lookup of an account (`HashMap::get`). -/
def lookupAcc : BalanceChanges → Address → Option BalanceChange
  | [], _ => none
  | (a, bc) :: rest, acc => if a = acc then some bc else lookupAcc rest acc

/-- `self.entry(token).and_modify(|e| *e += v).or_insert(v)`: add `v` to
the entry of `token`, treating a missing entry as zero. -/
def addToken : BalanceChange → Address → Int → BalanceChange
  | [], token, v => [(token, v)]
  | (t, x) :: rest, token, v =>
      if t = token then (t, x + v) :: rest else (t, x) :: addToken rest token v

/-- Add `v` to `sheet[acc][token]`, creating missing entries as zero. -/
def addAt : BalanceChanges → Address → Address → Int → BalanceChanges
  | [], acc, token, v => [(acc, addToken [] token v)]
  | (a, bc) :: rest, acc, token, v =>
      if a = acc then (a, addToken bc token v) :: rest
      else (a, bc) :: addAt rest acc token v

/-- `BalanceChanges::append_transfer` (`balance_changes.rs`):
reinterpret `value` as signed; if `from ≠ 0` subtract it at
`sheet[from][token]`; if `to ≠ 0` add it at `sheet[to][token]`. -/
def appendTransfer (bcs : BalanceChanges) (token fromA toA : Address) (value : Nat) :
    BalanceChanges :=
  let v := i256fromRaw value
  let bcs1 := if fromA ≠ 0 then addAt bcs fromA token (-v) else bcs
  if toA ≠ 0 then addAt bcs1 toA token v else bcs1

/-- `BalanceChange::retain_non_zero`: drop zero-valued token entries. -/
def bcRetainNonZero (bc : BalanceChange) : BalanceChange :=
  bc.filter (fun te => decide (te.2 ≠ 0))

/-- `BalanceChanges::retain_non_zero`: prune zero token entries in every
account, then drop accounts whose delta map became empty. -/
def bcsRetainNonZero (bcs : BalanceChanges) : BalanceChanges :=
  (bcs.map (fun e => (e.1, bcRetainNonZero e.2))).filter (fun e => decide (e.2 ≠ []))

/-- `BalanceChange::extend`: pointwise add `other` into `self` with the
same zero-default semantics. -/
def bcExtend (a other : BalanceChange) : BalanceChange :=
  other.foldl (fun acc te => addToken acc te.1 te.2) a

/-- Remove a key from a `BalanceChange` (`HashMap::remove`), returning
the removed value (if any) and the remaining map. -/
def removeTok : BalanceChange → Address → Option Int × BalanceChange
  | [], _ => (none, [])
  | (t, x) :: rest, token =>
      if t = token then (some x, rest)
      else
        let r := removeTok rest token
        (r.1, (t, x) :: r.2)

/-! ## Chains

The chain identity and its capability table.  `is_weth9` is translated
from `src/utils.rs`; the wrapped-native-token table and the
Optimism-family test live in the external `alloy-chains` crate and are
modelled from the spec (§4.2, §4.3, §9 "Chain identity"). -/

/-- The named chains relevant to this program. -/
inductive NamedChain
  | mainnet
  | binanceSmartChain
  | polygon
  | optimism
  | base
  | blast
  | arbitrum
  deriving DecidableEq, Repr

/-- `alloy_chains::Chain`: either a known named chain or a bare id. -/
inductive Chain
  | chainNamed (c : NamedChain)
  | chainId (id : Nat)
  deriving DecidableEq, Repr

/-- `Chain::named()`. -/
def Chain.named : Chain → Option NamedChain
  | .chainNamed c => some c
  | .chainId _ => none

/-- `Chain::mainnet()`. -/
def Chain.mainnetChain : Chain := .chainNamed .mainnet

/-- Modelled from the spec: the wrapped-native-token table
(`NamedChain::wrapped_native_token` of the external `alloy-chains`
crate, not part of this repository's sources).  Spec §4.2 step 2 and
§9: chain-specific behaviour is table-driven; each supported chain has
a known wrapped-native (WETH9-like) token address. -/
def NamedChain.wrappedNativeToken : NamedChain → Address
  | .mainnet => 0xC02aaA39b223FE8D0A0e5C4F27eAD9083C756Cc2
  | .binanceSmartChain => 0xbb4CdB9CBd36B01bD1cBaEF60aF814a3f6F0Ee74
  | .polygon => 0x0d500B1d8E8eF31E21C99d1Db9A6444d3ADf1270
  | .optimism => 0x4200000000000000000000000000000000000006
  | .base => 0x4200000000000000000000000000000000000006
  | .blast => 0x4300000000000000000000000000000000000004
  | .arbitrum => 0x82aF49447D8a07e3bd95BD0d56f35241523fBab1

/-- `chain.named().and_then(|c| c.wrapped_native_token())`. -/
def Chain.wrappedNative (c : Chain) : Option Address :=
  c.named.map NamedChain.wrappedNativeToken

/-- `utils.rs`: `is_weth9` — the chains known to emit canonical WETH9
`Deposit`/`Withdrawal` logs. -/
def isWeth9 (chain : Chain) : Bool :=
  match chain.named with
  | some .mainnet | some .binanceSmartChain | some .polygon
  | some .optimism | some .base | some .blast => true
  | _ => false

/-- Modelled from the spec: `Chain::is_optimism` of the external
`alloy-chains` crate (spec §4.3 "Tx fee": the `l1Fee` extra applies on
Optimism-family L2s). -/
def isOptimism (chain : Chain) : Bool :=
  match chain.named with
  | some .optimism | some .base => true
  | _ => false

/-! ## Wallet configuration (`config.rs`) -/

/-- `config.rs`: `AlertTo`. -/
structure AlertTo where
  botToken : String
  chatId : String
  threadId : Option String
  deriving DecidableEq, Repr

/-- `config.rs`: `WalletWithContext` — a configured wallet with its
precomputed `involved_wallets` list. -/
structure WalletWithContext where
  name : String
  address : Address
  builder : Option Address
  includeRecipient : Bool
  alertTo : AlertTo
  involvedWallets : List Address
  deriving DecidableEq, Repr

/-- `WalletWithContext::new` (`config.rs` lines 137-166): precompute
`involved_wallets` by chaining the primary address, the optional
builder and the auxiliary addresses. -/
def WalletWithContext.new (name : String) (address : Address) (builder : Option Address)
    (otherAddresses : List Address) (includeRecipient : Bool) (alertTo : AlertTo) :
    WalletWithContext :=
  { name := name
    address := address
    builder := builder
    includeRecipient := includeRecipient
    alertTo := alertTo
    involvedWallets := [address] ++ builder.toList ++ otherAddresses }

/-! ## Inputs: receipts, headers, call frames -/

/-- `AnyTransactionReceipt`, restricted to the fields the program
reads.  `l1Fee` models `receipt.other.get("l1Fee").and_then(as_str)`:
`none` means the extension entry is missing or not a string. -/
structure Receipt where
  status : Bool
  fromAddr : Address
  toAddr : Option Address
  gasUsed : Nat
  effectiveGasPrice : Nat
  transactionIndex : Option Nat
  transactionHash : Nat
  l1Fee : Option String
  deriving DecidableEq, Repr

/-- Block `Header`, restricted to the fields the program reads. -/
structure Header where
  number : Nat
  baseFeePerGas : Option Nat
  miner : Address
  deriving DecidableEq, Repr

/-- A call-tracer log (`CallLogFrame`): all fields are optional in the
RPC schema.  Topics are 32-byte words, data is a byte string. -/
structure LogEntry where
  address : Option Address
  topics : Option (List Nat)
  data : Option (List Nat)
  deriving DecidableEq, Repr

/-- A call-tracer frame (`CallFrame`): type tag, endpoints, attached
native value, error markers, emitted logs and child calls. -/
inductive CallFrame where
  | mk (typ : String) (fromAddr : Address) (toAddr : Option Address)
      (value : Option Nat) (error : Option String) (revertReason : Option String)
      (logs : List LogEntry) (calls : List CallFrame)

def CallFrame.typ : CallFrame → String
  | .mk t _ _ _ _ _ _ _ => t

def CallFrame.fromAddr : CallFrame → Address
  | .mk _ f _ _ _ _ _ _ => f

def CallFrame.toAddr : CallFrame → Option Address
  | .mk _ _ t _ _ _ _ _ => t

def CallFrame.value : CallFrame → Option Nat
  | .mk _ _ _ v _ _ _ _ => v

def CallFrame.error : CallFrame → Option String
  | .mk _ _ _ _ e _ _ _ => e

def CallFrame.revertReason : CallFrame → Option String
  | .mk _ _ _ _ _ r _ _ => r

def CallFrame.logs : CallFrame → List LogEntry
  | .mk _ _ _ _ _ _ l _ => l

def CallFrame.calls : CallFrame → List CallFrame
  | .mk _ _ _ _ _ _ _ c => c

/-! ## Log decoding

The ABI event decoders come from the external `alloy` `sol!` macro
(`src/contract.rs` only declares the event shapes), so they are
modelled from the spec (§4.2 step 3): an event matches when its first
topic is the event's signature hash, its indexed parameters occupy the
remaining topics, and the single non-indexed `uint256` parameter is the
32-byte data word.  Address-typed topics must be zero-padded
(`decode_log(log, true)` validates padding). -/

/-- A decoded `(token, from, to, value)` transfer tuple. -/
structure Transfer where
  token : Address
  src : Address
  dst : Address
  value : Nat
  deriving DecidableEq, Repr

/-- keccak256 of `Transfer(address,address,uint256)`. -/
def TRANSFER_SIG : Nat :=
  0xddf252ad1be2c89b69c2b068fc378daa952ba7f163c4a11628f55a4df523b3ef

/-- keccak256 of `Deposit(address,uint256)` (WETH9). -/
def DEPOSIT_SIG : Nat :=
  0xe1fffcc4923d04b559f4d29a8bfc6cda04eb5b0d3c460751c2402c5c5cc9109c

/-- keccak256 of `Withdrawal(address,uint256)` (WETH9). -/
def WITHDRAWAL_SIG : Nat :=
  0x7fcf532c15f0a6db0bd6d0e038bea71d30d808c7d98cb3bf7268a95bf5081b65

/-- Big-endian bytes to `Nat`. -/
def beBytesToNat (l : List Nat) : Nat :=
  l.foldl (fun acc b => acc * 256 + b % 256) 0

/-- Modelled from the spec: decode an ERC-20 `Transfer` log —
signature topic plus two indexed (zero-padded) addresses, one 32-byte
data word. -/
def decodeTransferLog (topics : List Nat) (data : List Nat) :
    Option (Address × Address × Nat) :=
  match topics with
  | [sig, f, t] =>
      if sig = TRANSFER_SIG ∧ f < 2 ^ 160 ∧ t < 2 ^ 160 ∧ data.length = 32 then
        some (f, t, beBytesToNat data)
      else none
  | _ => none

/-- Modelled from the spec: decode a WETH9 `Withdrawal(src, wad)` log. -/
def decodeWithdrawalLog (topics : List Nat) (data : List Nat) :
    Option (Address × Nat) :=
  match topics with
  | [sig, s] =>
      if sig = WITHDRAWAL_SIG ∧ s < 2 ^ 160 ∧ data.length = 32 then
        some (s, beBytesToNat data)
      else none
  | _ => none

/-- Modelled from the spec: decode a WETH9 `Deposit(dst, wad)` log. -/
def decodeDepositLog (topics : List Nat) (data : List Nat) :
    Option (Address × Nat) :=
  match topics with
  | [sig, d] =>
      if sig = DEPOSIT_SIG ∧ d < 2 ^ 160 ∧ data.length = 32 then
        some (d, beBytesToNat data)
      else none
  | _ => none

/-! ## The transfer extractor (`processor.rs::generate_pnl`) -/

/-- The `is_relevant_address!` macro: with no `only_addresses` filter
every address is relevant, otherwise membership in the set. -/
def isRelevant (only : Option (List Address)) (a : Address) : Bool :=
  match only with
  | none => true
  | some s => s.contains a

/-- Decode one log into an optional transfer tuple, mirroring
`processor.rs` lines 206-226: a missing log address is a fatal error;
`Log::new` rejects more than four topics; an ERC-20 `Transfer` match
takes priority; on the wrapped-native contract of a WETH9-emitting
chain, try `Withdrawal` then `Deposit`; anything else is ignored. -/
def logTransfer (chain : Chain) (weth : Address) (lg : LogEntry) :
    Except String (Option Transfer) := do
  let addr ← match lg.address with
    | some a => pure a
    | none => throw "Log address is not set"
  let topics := lg.topics.getD []
  let data := lg.data.getD []
  if topics.length > 4 then throw "Log is invalid"
  match decodeTransferLog topics data with
  | some (f, t, v) => pure (some ⟨addr, f, t, v⟩)
  | none =>
      if addr = weth ∧ isWeth9 chain then
        match decodeWithdrawalLog topics data with
        | some (s, wad) => pure (some ⟨weth, s, 0, wad⟩)
        | none =>
            match decodeDepositLog topics data with
            | some (d, wad) => pure (some ⟨weth, 0, d, wad⟩)
            | none => pure none
      else pure none

/-- Decode all of a frame's logs in order, keeping a transfer only when
one endpoint is relevant (`processor.rs` lines 228-232). -/
def logsTransfers (chain : Chain) (weth : Address) (only : Option (List Address)) :
    List LogEntry → Except String (List Transfer)
  | [] => .ok []
  | lg :: rest => do
      let t? ← logTransfer chain weth lg
      let ts ← logsTransfers chain weth only rest
      match t? with
      | some t =>
          if isRelevant only t.src || isRelevant only t.dst then pure (t :: ts)
          else pure ts
      | none => pure ts

/-- The frame's own native-value transfer (`processor.rs` lines
237-255): skipped when the value is absent or zero, emitted only for
the value-moving frame types, and subject to the relevance filter. -/
def nativeTransfer (only : Option (List Address)) (f : CallFrame) : List Transfer :=
  let value := f.value.getD 0
  if value = 0 then []
  else
    match f.typ with
    | "CALL" | "CALLCODE" | "CREATE" | "CREATE2" | "SELFDESTRUCT" =>
        let toA := f.toAddr.getD 0
        if isRelevant only f.fromAddr || isRelevant only toA then
          [⟨NATIVE_TOKEN, f.fromAddr, toA, value⟩]
        else []
    | _ => []

/-- The transfers a single frame emits, in order: log transfers first,
then the frame's own native-value transfer. -/
def frameOwnTransfers (chain : Chain) (weth : Address) (only : Option (List Address))
    (f : CallFrame) : Except String (List Transfer) := do
  let ls ← logsTransfers chain weth only f.logs
  pure (ls ++ nativeTransfer only f)

mutual

/-- Size of a call frame: one plus the sizes of its children; the
termination measure for the breadth-first walk. -/
def CallFrame.size : CallFrame → Nat
  | .mk _ _ _ _ _ _ _ calls => 1 + framesSize calls

/-- Total size of a list of frames. -/
def framesSize : List CallFrame → Nat
  | [] => 0
  | f :: rest => CallFrame.size f + framesSize rest

end

theorem framesSize_cons (f : CallFrame) (l : List CallFrame) :
    framesSize (f :: l) = CallFrame.size f + framesSize l := rfl

theorem framesSize_append (l1 l2 : List CallFrame) :
    framesSize (l1 ++ l2) = framesSize l1 + framesSize l2 := by
  induction l1 with
  | nil => simp [framesSize]
  | cons a l ih => simp [framesSize, ih]; omega

theorem size_eq_one_add (f : CallFrame) : CallFrame.size f = 1 + framesSize f.calls := by
  cases f with
  | mk typ fromAddr toAddr value error revertReason logs calls => rfl

theorem framesSize_calls_lt (f : CallFrame) : framesSize f.calls < CallFrame.size f := by
  rw [size_eq_one_add]; omega

theorem size_callframe_pos (f : CallFrame) : 0 < CallFrame.size f := by
  rw [size_eq_one_add]; omega

/-- The breadth-first walk of `generate_pnl` (`processor.rs` lines
200-256), as the ordered list of transfers it appends: pop the front
frame; a frame with `error` or `revert_reason` set is skipped together
with its children; otherwise emit its log transfers, enqueue its
children at the back, and emit its native-value transfer. -/
def walkFrames (chain : Chain) (weth : Address) (only : Option (List Address)) :
    List CallFrame → Except String (List Transfer)
  | [] => .ok []
  | f :: rest =>
      if f.error.isSome || f.revertReason.isSome then
        walkFrames chain weth only rest
      else
        match frameOwnTransfers chain weth only f with
        | .error e => .error e
        | .ok own =>
            match walkFrames chain weth only (rest ++ f.calls) with
            | .error e => .error e
            | .ok restT => .ok (own ++ restT)
termination_by l => framesSize l
decreasing_by
  all_goals
    simp only [framesSize_cons, framesSize_append]
    have _h1 := size_callframe_pos f
    have _h2 := framesSize_calls_lt f
    omega

/-- Apply a list of transfers to a sheet, in order. -/
def applyTransfers (ts : List Transfer) (bcs : BalanceChanges) : BalanceChanges :=
  ts.foldl (fun b t => appendTransfer b t.token t.src t.dst t.value) bcs

/-- `processor.rs::generate_pnl`: empty sheet for a failed transaction
(before the wrapped-native lookup); fatal error when the chain has no
wrapped-native token; otherwise walk the call tree collecting
transfers, apply them, and prune zeros. -/
def generate_pnl (chain : Chain) (receipt : Receipt) (callTrace : CallFrame)
    (onlyAddresses : Option (List Address)) : Except String BalanceChanges :=
  if !receipt.status then .ok []
  else
    match chain.wrappedNative with
    | none => .error "WETH address not found. Chain is not supported"
    | some weth =>
        match walkFrames chain weth onlyAddresses [callTrace] with
        | .error e => .error e
        | .ok ts => .ok (bcsRetainNonZero (applyTransfers ts []))

/-! ## Ether extraction and fees -/

/-- `BalanceChange::extract_ether` (`balance_changes.rs` lines
126-136): remove the wrapped-native entry (when the chain has a known
wrapped-native token) and the native (zero-address) entry; return their
sum together with the remaining map. -/
def extractEther (bc : BalanceChange) (chain : Chain) : Int × BalanceChange :=
  let wres :=
    match chain.wrappedNative with
    | some w => removeTok bc w
    | none => (none, bc)
  let eres := removeTok wres.2 NATIVE_TOKEN
  (eres.1.getD 0 + wres.1.getD 0, eres.2)

/-- A hexadecimal digit value. -/
def hexDigit (c : Char) : Option Nat :=
  if 48 ≤ c.toNat ∧ c.toNat ≤ 57 then some (c.toNat - 48)
  else if 97 ≤ c.toNat ∧ c.toNat ≤ 102 then some (c.toNat - 87)
  else if 65 ≤ c.toNat ∧ c.toNat ≤ 70 then some (c.toNat - 55)
  else none

/-- Accumulating hex parse. -/
def parseHexCore : List Char → Nat → Option Nat
  | [], acc => some acc
  | c :: rest, acc =>
      match hexDigit c with
      | some d => parseHexCore rest (acc * 16 + d)
      | none => none

/-- Modelled from the spec: `U256::from_str_radix(s, 16)` of the
external `ruint` crate — parse a non-empty hexadecimal string (§4.3
"Tx fee": a hex string; missing or non-hex fails the tx processing). -/
def parseHexStr (l : List Char) : Option Nat :=
  if l.isEmpty then none else parseHexCore l 0

/-- `s.trim_start_matches("0x")`: strip every leading `0x`. -/
def stripAll0x : List Char → List Char
  | '0' :: 'x' :: rest => stripAll0x rest
  | l => l

/-- `processor.rs::calculate_tx_fee`: `gas_used × effective_gas_price`
plus, on Optimism-family chains, the hex-parsed `l1Fee` extension
(missing or non-hex is an error), reinterpreted as signed. -/
def calculate_tx_fee (chain : Chain) (receipt : Receipt) : Except String Int :=
  let extraE : Except String Nat :=
    if isOptimism chain then
      match parseHexStr (stripAll0x (receipt.l1Fee.getD "").toList) with
      | some v => .ok v
      | none => .error "Failed to parse l1Fee"
    else .ok 0
  match extraE with
  | .error e => .error e
  | .ok extra => .ok (i256fromRaw (receipt.gasUsed * receipt.effectiveGasPrice + extra))

/-- `processor.rs::calculate_builder_reward`: sum
`(effective_gas_price − base_fee) × gas_used` over the receipts.  The
`u128` subtraction is unguarded in the source and panics on underflow;
the panic is modelled as `none`. -/
def builderRewardStep (baseFee : Nat) (acc : Nat) (r : Receipt) : Option Nat :=
  if baseFee ≤ r.effectiveGasPrice then
    some (acc + (r.effectiveGasPrice - baseFee) * r.gasUsed)
  else none

def calculate_builder_reward (baseFee : Nat) (receipts : List Receipt) : Option Nat :=
  receipts.foldlM (builderRewardStep baseFee) 0

/-! ## The block processor (`processor.rs::process_block`) -/

/-- `processor.rs`: `TxAndPosition`. -/
structure TxAndPosition where
  index : Nat
  hash : Nat
  deriving DecidableEq, Repr

/-- `processor.rs`: `PnlReport`. -/
structure PnlReport where
  txs : List TxAndPosition
  pnl : Int
  builderReward : Nat
  validatorBribe : Nat
  tokenChanges : BalanceChange
  deriving DecidableEq, Repr

/-- `processor.rs`: `BalanceChangesCache` — the per-transaction
filtered and full sheets stored by the pre-pass. -/
structure BalanceChangesCache where
  filtered : BalanceChanges
  full : BalanceChanges
  deriving DecidableEq, Repr

/-- `processor.rs::find_all_receipients`: the `to` of every successful
receipt with a recipient whose `from` is the primary address of some
wallet with `include_recipient` set. -/
def find_all_receipients (receipts : List Receipt) (wallets : List WalletWithContext) :
    List Address :=
  ((receipts.filter (fun r => r.status)).filterMap
      (fun r => r.toAddr.map (fun toA => (r.fromAddr, toA)))).filterMap
    (fun p =>
      if wallets.any (fun w => w.includeRecipient && decide (w.address = p.1)) then some p.2
      else none)

/-- `involved_wallets` of every wallet chained with the forwarded
recipients (the `all_involved_wallets` set of `process_block`). -/
def allInvolvedAddrs (receipts : List Receipt) (wallets : List WalletWithContext) :
    List Address :=
  (wallets.map (fun w => w.involvedWallets)).flatten ++ find_all_receipients receipts wallets

/-- `HashMap::insert`: replace the first occurrence of the key, else
append the binding at the end. -/
def insertAcc : BalanceChanges → Address → BalanceChange → BalanceChanges
  | [], acc, bc => [(acc, bc)]
  | (a, b) :: rest, acc, bc =>
      if a = acc then (a, bc) :: rest else (a, b) :: insertAcc rest acc bc

/-- `processor.rs::clone_and_retain_accounts` (lines 291-301),
translated exactly as written: start from a clone of the whole sheet
and re-insert the entries whose account is in `accounts`. -/
def clone_and_retain_accounts (bcs : BalanceChanges) (accounts : List Address) :
    BalanceChanges :=
  bcs.foldl
    (fun result e => if accounts.contains e.1 then insertAcc result e.1 e.2 else result)
    bcs

/-- The flattened `(account, token, amount)` view of a sheet
(`bc_sheet_iter` of `is_shitcoin_airdrop`). -/
def sheetEntries (bcs : BalanceChanges) : List (Address × Address × Int) :=
  bcs.flatMap (fun e => e.2.map (fun te => (e.1, te.1, te.2)))

/-- `processor.rs::is_shitcoin_airdrop` (lines 306-332). -/
def is_shitcoin_airdrop (fullBcs : BalanceChanges) : Bool :=
  if fullBcs.length < 3 then false
  else
    match sheetEntries fullBcs with
    | [] => false
    | (_, token, _) :: _ =>
        if !((sheetEntries fullBcs).all (fun s => decide (s.2.1 = token))) then false
        else if ((sheetEntries fullBcs).filter (fun s => decide (s.2.2 < 0))).length ≠ 1 then
          false
        else true

/-- `processor.rs::merge_accounts`: deduplicate the involved addresses
plus the optional recipient, look each up in the (filtered) sheet, fold
their deltas by pointwise addition and drop zeros. -/
def merge_accounts (bcs : BalanceChanges) (accounts : List Address)
    (recipient : Option Address) : BalanceChange :=
  bcRetainNonZero
    (((accounts ++ recipient.toList).dedup.filterMap (fun a => lookupAcc bcs a)).foldl
      bcExtend [])

/-- `processor.rs::find_validator_bribe` (lines 436-454): in the last
transaction's full sheet, the largest positive native-token delta
(reinterpreted as unsigned), or zero. -/
def find_validator_bribe (allBcs : List BalanceChangesCache) : Nat :=
  match allBcs.getLast? with
  | none => 0
  | some bc =>
      (bc.full.filterMap (fun e =>
        match lookupTok e.2 NATIVE_TOKEN with
        | some ether => if 0 < ether then some (i256intoRaw ether) else none
        | none => none)).foldl max 0

/-- `is_builder` (`process_block` line 83): mainnet, builder set, and
the block's miner equals the builder. -/
def isBuilder (chain : Chain) (header : Header) (wallet : WalletWithContext) : Bool :=
  decide (chain = Chain.mainnetChain) &&
    (match wallet.builder with
     | some b => decide (header.miner = b)
     | none => false)

/-- `process_block` lines 86-99: builder reward and validator bribe,
both zero for a non-builder.  `header.base_fee_per_gas.expect(...)` and
the `u128` underflow panic are modelled as errors. -/
def builderRewardAndBribe (chain : Chain) (header : Header) (receipts : List Receipt)
    (caches : List BalanceChangesCache) (wallet : WalletWithContext) :
    Except String (Nat × Nat) :=
  if isBuilder chain header wallet then
    match header.baseFeePerGas with
    | none => .error "Base fee per gas is not set"
    | some bf =>
        match calculate_builder_reward bf receipts with
        | none => .error "effective gas price is below the base fee"
        | some rw => .ok (rw, find_validator_bribe caches)
  else .ok (0, 0)

/-- `process_block` lines 101-108: the wallet's involved transactions —
the filtered sheet touches the involved set and the full sheet is not a
shitcoin airdrop. -/
def involvedTxs (wallet : WalletWithContext) (receipts : List Receipt)
    (caches : List BalanceChangesCache) : List (Receipt × BalanceChangesCache) :=
  (receipts.zip caches).filter (fun p =>
    p.2.filtered.any (fun e => wallet.involvedWallets.contains e.1) &&
      !is_shitcoin_airdrop p.2.full)

/-- One iteration of the per-transaction loop (`process_block` lines
118-139): charge the fee when the receipt's `from` is involved, merge
the involved accounts (plus the forwarded recipient) of the filtered
sheet, and extend the running totals. -/
def accumulate_tx (chain : Chain) (wallet : WalletWithContext) (acc : Int × BalanceChange)
    (p : Receipt × BalanceChangesCache) : Except String (Int × BalanceChange) :=
  let feeE : Except String Int :=
    if wallet.involvedWallets.contains p.1.fromAddr then calculate_tx_fee chain p.1
    else .ok 0
  match feeE with
  | .error e => .error e
  | .ok fee =>
      let recipient := if p.1.fromAddr = wallet.address then p.1.toAddr else none
      .ok (acc.1 + fee,
           bcExtend acc.2 (merge_accounts p.2.filtered wallet.involvedWallets recipient))

/-- Stable insertion into a list sorted ascending by `index`: the new
element (earlier in the original order) goes before equal keys. -/
def insertByIndex (t : TxAndPosition) : List TxAndPosition → List TxAndPosition
  | [] => [t]
  | x :: rest => if x.index < t.index then x :: insertByIndex t rest else t :: x :: rest

/-- `txs.sort_by_key(|t| t.index)`: Rust's stable ascending sort by
key, modelled as a stable insertion sort. -/
def sortByIndex (l : List TxAndPosition) : List TxAndPosition :=
  l.foldr insertByIndex []

/-- The per-wallet body of `process_block` (lines 79-162). -/
def wallet_report (chain : Chain) (header : Header) (receipts : List Receipt)
    (caches : List BalanceChangesCache) (wallet : WalletWithContext) :
    Except String (Option PnlReport) :=
  match builderRewardAndBribe chain header receipts caches wallet with
  | .error e => .error e
  | .ok (builderReward, validatorBribe) =>
      let allInvolvedTxs := involvedTxs wallet receipts caches
      if allInvolvedTxs.isEmpty && decide (builderReward = 0) then .ok none
      else
        match allInvolvedTxs.foldlM (accumulate_tx chain wallet) ((0 : Int), ([] : BalanceChange)) with
        | .error e => .error e
        | .ok tf =>
            let tokenChanges := bcRetainNonZero tf.2
            let extracted := extractEther tokenChanges chain
            let etherPnl := extracted.1 - tf.1 + i256fromRaw builderReward
            match allInvolvedTxs.mapM (fun p =>
                match p.1.transactionIndex with
                | some i => Except.ok (⟨i, p.1.transactionHash⟩ : TxAndPosition)
                | none => Except.error "transaction index is not set") with
            | .error e => .error e
            | .ok txs0 =>
                .ok (some
                  { txs := sortByIndex txs0
                    pnl := etherPnl
                    builderReward := builderReward
                    validatorBribe := validatorBribe
                    tokenChanges := extracted.2 })

/-- The pre-pass of `process_block` (lines 67-77): run the extractor on
each transaction and store the full sheet together with the "filtered"
sheet produced by `clone_and_retain_accounts`. -/
def buildCaches (chain : Chain) (allInvolved : List Address)
    (rts : List (Receipt × CallFrame)) : Except String (List BalanceChangesCache) :=
  rts.mapM (fun p =>
    match generate_pnl chain p.1 p.2 none with
    | .error e => .error e
    | .ok bcs => .ok { filtered := clone_and_retain_accounts bcs allInvolved, full := bcs })

/-- `processor.rs::process_block`. -/
def process_block (chain : Chain) (header : Header) (rts : List (Receipt × CallFrame))
    (wallets : List WalletWithContext) : Except String (List (Option PnlReport)) :=
  match buildCaches chain (allInvolvedAddrs (rts.map (fun p => p.1)) wallets) rts with
  | .error e => .error e
  | .ok caches => wallets.mapM (wallet_report chain header (rts.map (fun p => p.1)) caches)

/-! ## Basic lemmas -/

@[simp] theorem CallFrame.typ_mk (t : String) (f : Address) (toA : Option Address)
    (v : Option Nat) (e r : Option String) (lg : List LogEntry) (cs : List CallFrame) :
    (CallFrame.mk t f toA v e r lg cs).typ = t := rfl

@[simp] theorem CallFrame.fromAddr_mk (t : String) (f : Address) (toA : Option Address)
    (v : Option Nat) (e r : Option String) (lg : List LogEntry) (cs : List CallFrame) :
    (CallFrame.mk t f toA v e r lg cs).fromAddr = f := rfl

@[simp] theorem CallFrame.toAddr_mk (t : String) (f : Address) (toA : Option Address)
    (v : Option Nat) (e r : Option String) (lg : List LogEntry) (cs : List CallFrame) :
    (CallFrame.mk t f toA v e r lg cs).toAddr = toA := rfl

@[simp] theorem CallFrame.value_mk (t : String) (f : Address) (toA : Option Address)
    (v : Option Nat) (e r : Option String) (lg : List LogEntry) (cs : List CallFrame) :
    (CallFrame.mk t f toA v e r lg cs).value = v := rfl

@[simp] theorem CallFrame.error_mk (t : String) (f : Address) (toA : Option Address)
    (v : Option Nat) (e r : Option String) (lg : List LogEntry) (cs : List CallFrame) :
    (CallFrame.mk t f toA v e r lg cs).error = e := rfl

@[simp] theorem CallFrame.revertReason_mk (t : String) (f : Address) (toA : Option Address)
    (v : Option Nat) (e r : Option String) (lg : List LogEntry) (cs : List CallFrame) :
    (CallFrame.mk t f toA v e r lg cs).revertReason = r := rfl

@[simp] theorem CallFrame.logs_mk (t : String) (f : Address) (toA : Option Address)
    (v : Option Nat) (e r : Option String) (lg : List LogEntry) (cs : List CallFrame) :
    (CallFrame.mk t f toA v e r lg cs).logs = lg := rfl

@[simp] theorem CallFrame.calls_mk (t : String) (f : Address) (toA : Option Address)
    (v : Option Nat) (e r : Option String) (lg : List LogEntry) (cs : List CallFrame) :
    (CallFrame.mk t f toA v e r lg cs).calls = cs := rfl

/-- Restriction of a sheet to the accounts in `s` (the spec's
"entries of the sheet whose account key is in `s`"). -/
def restrictAccounts (s : List Address) (bcs : BalanceChanges) : BalanceChanges :=
  bcs.filter (fun e => decide (e.1 ∈ s))

/-! ## C2 — the involved set is a plain concatenation, not deduplicated -/

/-- A throw-away alert target for concrete scenarios. -/
def someAlert : AlertTo := { botToken := "t", chatId := "c", threadId := none }

/-- C2, counterexample: when the builder address coincides with the
primary address, `WalletWithContext::new` keeps both copies — the
involved list contains the address twice, contradicting the claim that
the involved set "contains no address twice". -/
theorem c2_dup_counterexample :
    ¬ ((WalletWithContext.new "w" 1 (some 1) [] false someAlert).involvedWallets.Nodup) := by
  decide

/-- C2, amended: the precomputed involved list is the plain
concatenation `[primary] ++ builder ++ auxiliaries`; as a *set* it
contains exactly the primary, the builder (if set) and the auxiliary
addresses, but it is not deduplicated, so an address that occurs in
more than one role appears more than once. -/
theorem c2_involved_concat (name : String) (address : Address) (builder : Option Address)
    (otherAddresses : List Address) (ir : Bool) (al : AlertTo) :
    (WalletWithContext.new name address builder otherAddresses ir al).involvedWallets
        = [address] ++ builder.toList ++ otherAddresses ∧
      ∀ x : Address,
        x ∈ (WalletWithContext.new name address builder otherAddresses ir al).involvedWallets
          ↔ (x = address ∨ builder = some x ∨ x ∈ otherAddresses) := by
  refine ⟨rfl, fun x => ?_⟩
  simp [WalletWithContext.new, Option.mem_toList, eq_comm]

/-! ## C1 — the pre-pass "filtered" sheet is not filtered at all

`clone_and_retain_accounts` starts from a clone of the full sheet and
then re-inserts the very entries it was supposed to retain, so the
stored `filtered` sheet always equals the full sheet.  On any
transaction whose sheet touches an account outside `universe` the
claimed equality `filtered = restrict universe full` fails. -/

/-- A plain ether transfer: `CALL` from account 1 to account 2 with
value 5 and no logs. -/
def c1Trace : CallFrame := .mk "CALL" 1 (some 2) (some 5) none none [] []

/-- A successful receipt for the transaction of `c1Trace`. -/
def c1Receipt : Receipt :=
  { status := true, fromAddr := 1, toAddr := some 2, gasUsed := 21000,
    effectiveGasPrice := 10, transactionIndex := some 0, transactionHash := 7,
    l1Fee := none }

/-- C1 fails on the code: with no wallets the universe is empty, yet
the pre-pass stores a "filtered" sheet equal to the full sheet — its
account keys 1 and 2 are not in the universe, and the sheet differs
from the restriction of the full sheet to the universe (which is
empty). -/
theorem c1_prepass_filtered_is_full :
    buildCaches Chain.mainnetChain (allInvolvedAddrs [c1Receipt] []) [(c1Receipt, c1Trace)]
        = .ok [{ filtered := [(1, [(NATIVE_TOKEN, -5)]), (2, [(NATIVE_TOKEN, 5)])],
                 full := [(1, [(NATIVE_TOKEN, -5)]), (2, [(NATIVE_TOKEN, 5)])] }] ∧
      allInvolvedAddrs [c1Receipt] [] = [] ∧
      restrictAccounts (allInvolvedAddrs [c1Receipt] [])
          [(1, [(NATIVE_TOKEN, -5)]), (2, [(NATIVE_TOKEN, 5)])] = [] := by
  have hwalk :
      walkFrames (Chain.chainNamed NamedChain.mainnet) (NamedChain.wrappedNativeToken .mainnet)
          none [c1Trace]
        = .ok [⟨NATIVE_TOKEN, 1, 2, 5⟩] := by
    simp [walkFrames, frameOwnTransfers, logsTransfers, nativeTransfer, isRelevant, c1Trace,
      NATIVE_TOKEN]
  refine ⟨?_, by decide, by decide⟩
  simp [buildCaches, List.mapM, List.mapM.loop, generate_pnl, c1Receipt, Chain.mainnetChain,
    Chain.wrappedNative, Chain.named, hwalk, applyTransfers, appendTransfer, i256fromRaw,
    TWO256, TWO255, addAt, addToken, bcsRetainNonZero, bcRetainNonZero,
    clone_and_retain_accounts, allInvolvedAddrs, find_all_receipients, NATIVE_TOKEN]

/-! ## C4 — the shitcoin-airdrop classifier -/

/-- C4: the airdrop classifier holds exactly when the sheet has at
least three account entries, all `(account, token, delta)` entries
reference one single token, and exactly one entry has a negative
delta.  (Proved for every sheet, in particular for every normalized
per-transaction sheet.) -/
theorem c4_airdrop_iff (bcs : BalanceChanges) :
    is_shitcoin_airdrop bcs = true ↔
      (3 ≤ bcs.length ∧
        (∃ token, ∀ s ∈ sheetEntries bcs, s.2.1 = token) ∧
        ((sheetEntries bcs).filter (fun s => decide (s.2.2 < 0))).length = 1) := by
  unfold is_shitcoin_airdrop
  by_cases hlen : bcs.length < 3
  · simp only [hlen, if_true]
    constructor
    · intro h; exact absurd h (by simp)
    · rintro ⟨h3, -, -⟩; omega
  · simp only [hlen, if_false]
    cases hse : sheetEntries bcs with
    | nil =>
        simp only [hse]
        constructor
        · intro h; exact absurd h (by simp)
        · rintro ⟨-, -, hneg⟩; simp at hneg
    | cons s rest =>
        obtain ⟨a, tok, x⟩ := s
        simp only [hse]
        constructor
        · intro h
          by_cases hall : (((a, tok, x) :: rest).all fun s => decide (s.2.1 = tok)) = true
          · refine ⟨by omega, ⟨tok, by simpa using hall⟩, ?_⟩
            by_cases hneg :
                (((a, tok, x) :: rest).filter fun s => decide (s.2.2 < 0)).length = 1
            · exact hneg
            · simp [hall, hneg] at h
          · simp [hall] at h
        · rintro ⟨-, ⟨tok2, htok⟩, hneg⟩
          have htokhead : tok = tok2 := htok (a, tok, x) (by simp)
          have hall : (((a, tok, x) :: rest).all fun s => decide (s.2.1 = tok)) = true := by
            simp only [List.all_eq_true]
            intro s hs
            have := htok s hs
            simp [this, htokhead]
          simp [hall, hneg]

/-! ## `mapM` helpers -/

theorem mapM_except_ok_mem {α β : Type} (f : α → Except String β) (l : List α) :
    ∀ out, List.mapM f l = .ok out → ∀ b ∈ out, ∃ a ∈ l, f a = .ok b := by
  induction l with
  | nil => intro out h b hb; rw [List.mapM_nil] at h; cases h; simp at hb
  | cons a l ih =>
      intro out h b hb
      rw [List.mapM_cons] at h
      cases hfa : f a with
      | error e => rw [hfa] at h; simp [Bind.bind, Except.bind] at h
      | ok v =>
          rw [hfa] at h
          cases hml : List.mapM f l with
          | error e => rw [hml] at h; simp [Bind.bind, Except.bind] at h
          | ok vs =>
              rw [hml] at h
              have hout : out = v :: vs := by
                simp only [Bind.bind, Except.bind, Functor.map, Except.map, pure,
                  Except.pure, Except.ok.injEq] at h
                exact h.symm
              subst hout
              rcases List.mem_cons.mp hb with hb | hb
              · exact ⟨a, by simp, by simpa [hb] using hfa⟩
              · obtain ⟨a2, ha2, hfa2⟩ := ih vs hml b hb
                exact ⟨a2, by simp [ha2], hfa2⟩

theorem mapM_except_ok_get {α β : Type} (f : α → Except String β) (l : List α) :
    ∀ (out : List β) (i : Nat) (a : α), List.mapM f l = .ok out → l[i]? = some a →
      ∃ b, f a = .ok b ∧ out[i]? = some b := by
  induction l with
  | nil => intro out i a h ha; simp at ha
  | cons x l ih =>
      intro out i a h ha
      rw [List.mapM_cons] at h
      cases hfa : f x with
      | error e => rw [hfa] at h; simp [Bind.bind, Except.bind] at h
      | ok v =>
          rw [hfa] at h
          cases hml : List.mapM f l with
          | error e => rw [hml] at h; simp [Bind.bind, Except.bind] at h
          | ok vs =>
              rw [hml] at h
              have hout : out = v :: vs := by
                simp only [Bind.bind, Except.bind, Functor.map, Except.map, pure,
                  Except.pure, Except.ok.injEq] at h
                exact h.symm
              subst hout
              cases i with
              | zero =>
                  simp at ha
                  exact ⟨v, by simpa [ha] using hfa, by simp⟩
              | succ i =>
                  simp only [List.getElem?_cons_succ] at ha ⊢
                  exact ih vs i a hml ha

/-! ## C10 — totality of the builder-reward computation -/

theorem builderReward_fold_ok (bf : Nat) :
    ∀ (receipts : List Receipt) (acc : Nat),
      (∀ r ∈ receipts, bf ≤ r.effectiveGasPrice) →
      receipts.foldlM (builderRewardStep bf) acc
        = some (acc + (receipts.map (fun r => (r.effectiveGasPrice - bf) * r.gasUsed)).sum) := by
  intro receipts
  induction receipts with
  | nil => intro acc h; simp [List.foldlM_nil, pure]
  | cons r rest ih =>
      intro acc h
      rw [List.foldlM_cons]
      have hr : bf ≤ r.effectiveGasPrice := h r (by simp)
      have hstep : builderRewardStep bf acc r
          = some (acc + (r.effectiveGasPrice - bf) * r.gasUsed) := by
        simp [builderRewardStep, hr]
      rw [hstep]
      simp only [Bind.bind, Option.bind]
      rw [ih (acc + (r.effectiveGasPrice - bf) * r.gasUsed)
        (fun r2 hr2 => h r2 (by simp [hr2]))]
      simp [Nat.add_assoc]

theorem builderReward_fold_none (bf : Nat) :
    ∀ (receipts : List Receipt) (acc : Nat),
      (∃ r ∈ receipts, r.effectiveGasPrice < bf) →
      receipts.foldlM (builderRewardStep bf) acc = none := by
  intro receipts
  induction receipts with
  | nil => intro acc h; simp at h
  | cons r rest ih =>
      intro acc h
      rw [List.foldlM_cons]
      by_cases hr : bf ≤ r.effectiveGasPrice
      · have hstep : builderRewardStep bf acc r
            = some (acc + (r.effectiveGasPrice - bf) * r.gasUsed) := by
          simp [builderRewardStep, hr]
        rw [hstep]
        simp only [Bind.bind, Option.bind]
        apply ih
        obtain ⟨r2, hmem, hlt⟩ := h
        rcases List.mem_cons.mp hmem with rfl | hmem2
        · omega
        · exact ⟨r2, hmem2, hlt⟩
      · have hstep : builderRewardStep bf acc r = none := by
          simp [builderRewardStep, hr]
        rw [hstep]
        simp [Bind.bind, Option.bind]

/-- C10: under the preconditions that the base fee is set and every
receipt's effective gas price is at least the base fee, the
builder-reward computation is total and returns
`Σ (effective_gas_price − base_fee) × gas_used`; a receipt below the
base fee always makes the unguarded `u128` subtraction underflow
(`none`), and for a builder wallet a missing base fee always makes the
`expect` fail. -/
theorem c10_builder_reward_total :
    (∀ (bf : Nat) (receipts : List Receipt),
        (∀ r ∈ receipts, bf ≤ r.effectiveGasPrice) →
        calculate_builder_reward bf receipts
          = some ((receipts.map (fun r => (r.effectiveGasPrice - bf) * r.gasUsed)).sum)) ∧
    (∀ (bf : Nat) (receipts : List Receipt),
        (∃ r ∈ receipts, r.effectiveGasPrice < bf) →
        calculate_builder_reward bf receipts = none) ∧
    (∀ (chain : Chain) (header : Header) (receipts : List Receipt)
        (caches : List BalanceChangesCache) (wallet : WalletWithContext),
        isBuilder chain header wallet = true → header.baseFeePerGas = none →
        builderRewardAndBribe chain header receipts caches wallet
          = .error "Base fee per gas is not set") := by
  refine ⟨?_, ?_, ?_⟩
  · intro bf receipts h
    simpa using builderReward_fold_ok bf receipts 0 h
  · intro bf receipts h
    exact builderReward_fold_none bf receipts 0 h
  · intro chain header receipts caches wallet hb hbase
    simp [builderRewardAndBribe, hb, hbase]

/-- A receipt whose effective gas price exceeds the base fee. -/
def c10Receipt : Receipt :=
  { status := true, fromAddr := 3, toAddr := some 4, gasUsed := 21000,
    effectiveGasPrice := 7, transactionIndex := some 0, transactionHash := 11,
    l1Fee := none }

/-- C10, witness: the first component evaluated at base fee 2 and one
concrete receipt. -/
theorem c10_builder_reward_total_witness :
    calculate_builder_reward 2 [c10Receipt]
      = some (([c10Receipt].map (fun r => (r.effectiveGasPrice - 2) * r.gasUsed)).sum) :=
  c10_builder_reward_total.1 2 [c10Receipt] (by decide)

/-! ## C9 — failed transactions -/

theorem clone_retain_empty (accounts : List Address) :
    clone_and_retain_accounts [] accounts = [] := rfl

theorem involvedTxs_of_empty_filtered (wallet : WalletWithContext)
    (receipts : List Receipt) (caches : List BalanceChangesCache)
    (h : ∀ c ∈ caches, c.filtered = []) :
    involvedTxs wallet receipts caches = [] := by
  unfold involvedTxs
  rw [List.filter_eq_nil_iff]
  intro p hp
  obtain ⟨r, c⟩ := p
  have h2 : c ∈ caches := (List.of_mem_zip hp).2
  simp [h c h2]

/-- C9: a failed transaction (receipt status `false`) yields an empty
sheet without error on any chain and with any filter; an empty filtered
sheet means the transaction is never one of a wallet's involved
transactions; and in a block whose every transaction failed, a wallet
whose computed builder reward is zero (in particular any non-builder
wallet) receives report `None`. -/
theorem c9_failed_tx :
    (∀ (chain : Chain) (receipt : Receipt) (trace : CallFrame)
        (only : Option (List Address)), receipt.status = false →
        generate_pnl chain receipt trace only = .ok []) ∧
    (∀ (wallet : WalletWithContext) (receipts : List Receipt)
        (caches : List BalanceChangesCache) (p : Receipt × BalanceChangesCache),
        p ∈ involvedTxs wallet receipts caches → p.2.filtered ≠ []) ∧
    (∀ (chain : Chain) (header : Header) (rts : List (Receipt × CallFrame))
        (wallets : List WalletWithContext) (reports : List (Option PnlReport))
        (i : Nat) (w : WalletWithContext),
        (∀ p ∈ rts, p.1.status = false) →
        process_block chain header rts wallets = .ok reports →
        wallets[i]? = some w →
        (isBuilder chain header w = false ∨
          (∃ bf, header.baseFeePerGas = some bf ∧
            calculate_builder_reward bf (rts.map (fun p => p.1)) = some 0)) →
        reports[i]? = some none) := by
  refine ⟨?_, ?_, ?_⟩
  · intro chain receipt trace only h
    simp [generate_pnl, h]
  · intro wallet receipts caches p hp hempty
    unfold involvedTxs at hp
    have := List.of_mem_filter hp
    simp [hempty] at this
  · intro chain header rts wallets reports i w hfail hpb hw hzero
    unfold process_block at hpb
    cases hbc : buildCaches chain (allInvolvedAddrs (rts.map (fun p => p.1)) wallets) rts with
    | error e => rw [hbc] at hpb; cases hpb
    | ok caches =>
        rw [hbc] at hpb
        -- every cache has an empty filtered sheet
        have hcempty : ∀ c ∈ caches, c.filtered = [] := by
          intro c hc
          obtain ⟨p, hpmem, hfp⟩ := mapM_except_ok_mem _ rts caches hbc c hc
          have hst : p.1.status = false := hfail p hpmem
          rw [show generate_pnl chain p.1 p.2 none = .ok [] by simp [generate_pnl, hst]] at hfp
          cases hfp
          rfl
        obtain ⟨b, hwr, hout⟩ := mapM_except_ok_get _ wallets reports i w hpb hw
        have hb : b = none := by
          have hinv : involvedTxs w (rts.map (fun p => p.1)) caches = [] :=
            involvedTxs_of_empty_filtered w _ caches hcempty
          have hbrb : ∃ vb, builderRewardAndBribe chain header (rts.map (fun p => p.1))
              caches w = .ok (0, vb) := by
            by_cases hib : isBuilder chain header w = true
            · rcases hzero with hzero | ⟨bf, hbase, hcal⟩
              · rw [hib] at hzero; cases hzero
              · exact ⟨find_validator_bribe caches, by
                  simp [builderRewardAndBribe, hib, hbase, hcal]⟩
            · exact ⟨0, by simp [builderRewardAndBribe, hib]⟩
          obtain ⟨vb, hbrb⟩ := hbrb
          have h2 := hwr
          unfold wallet_report at h2
          rw [hbrb] at h2
          simp [hinv] at h2
          exact h2.symm
        rw [hb] at hout
        exact hout

/-! ## Inversion of a successful wallet report -/

/-- Unwrap a `wallet_report` that produced `some r`: recover the
builder-reward/bribe pair, the fee/token-changes fold and the report's
construction. -/
theorem wallet_report_ok_some (chain : Chain) (header : Header) (receipts : List Receipt)
    (caches : List BalanceChangesCache) (wallet : WalletWithContext) (r : PnlReport)
    (h : wallet_report chain header receipts caches wallet = .ok (some r)) :
    ∃ (rwvb : Nat × Nat) (tf : Int × BalanceChange) (txs0 : List TxAndPosition),
      builderRewardAndBribe chain header receipts caches wallet = .ok rwvb ∧
      (involvedTxs wallet receipts caches).foldlM (accumulate_tx chain wallet)
          ((0 : Int), ([] : BalanceChange)) = .ok tf ∧
      r = { txs := sortByIndex txs0
            pnl := (extractEther (bcRetainNonZero tf.2) chain).1 - tf.1 + i256fromRaw rwvb.1
            builderReward := rwvb.1
            validatorBribe := rwvb.2
            tokenChanges := (extractEther (bcRetainNonZero tf.2) chain).2 } := by
  unfold wallet_report at h
  cases hbrb : builderRewardAndBribe chain header receipts caches wallet with
  | error e => rw [hbrb] at h; cases h
  | ok rwvb =>
      obtain ⟨rw1, vb⟩ := rwvb
      rw [hbrb] at h
      simp only at h
      by_cases hemp :
          ((involvedTxs wallet receipts caches).isEmpty && decide (rw1 = 0)) = true
      · rw [if_pos hemp] at h; cases h
      · rw [if_neg hemp] at h
        cases hfold : (involvedTxs wallet receipts caches).foldlM (accumulate_tx chain wallet)
            ((0 : Int), ([] : BalanceChange)) with
        | error e => rw [hfold] at h; cases h
        | ok tf =>
            rw [hfold] at h
            cases hmap : (involvedTxs wallet receipts caches).mapM (fun p =>
                match p.1.transactionIndex with
                | some i => Except.ok (⟨i, p.1.transactionHash⟩ : TxAndPosition)
                | none => Except.error "transaction index is not set") with
            | error e => rw [hmap] at h; cases h
            | ok txs0 =>
                rw [hmap] at h
                simp only [Except.ok.injEq, Option.some.injEq] at h
                exact ⟨(rw1, vb), tf, txs0, rfl, rfl, h.symm⟩

/-! ## C8 — the validator bribe -/

theorem bribe_list_eq (l : BalanceChanges) :
    (l.filterMap (fun e =>
        match lookupTok e.2 NATIVE_TOKEN with
        | some ether => if 0 < ether then some (i256intoRaw ether) else none
        | none => none))
      = ((l.map (fun e => lookupTokD e.2 NATIVE_TOKEN)).filter
          (fun v => decide (0 < v))).map i256intoRaw := by
  induction l with
  | nil => rfl
  | cons e rest ih =>
      simp only [List.filterMap_cons, List.map_cons, List.filter_cons]
      cases hlk : lookupTok e.2 NATIVE_TOKEN with
      | none => simp [lookupTokD, hlk, ih]
      | some ether =>
          by_cases hpos : 0 < ether
          · simp [lookupTokD, hlk, hpos, ih]
          · simp [lookupTokD, hlk, hpos, ih]

/-- C8: for a wallet report that was produced, `validator_bribe` is the
maximum positive native-token delta (as unsigned) over the accounts of
the last transaction's full sheet — zero when there is no transaction
or no positive native delta — when `is_builder` holds, and plain zero
when it does not; and `is_builder` holds exactly on Ethereum mainnet
with a configured builder equal to the block's miner. -/
theorem c8_validator_bribe (chain : Chain) (header : Header) (receipts : List Receipt)
    (caches : List BalanceChangesCache) (wallet : WalletWithContext) (r : PnlReport)
    (hrep : wallet_report chain header receipts caches wallet = .ok (some r)) :
    (isBuilder chain header wallet = true ↔
      (chain = Chain.mainnetChain ∧ ∃ b, wallet.builder = some b ∧ header.miner = b)) ∧
    (isBuilder chain header wallet = true →
      r.validatorBribe =
        match caches.getLast? with
        | none => 0
        | some c =>
            (((c.full.map (fun e => lookupTokD e.2 NATIVE_TOKEN)).filter
              (fun v => decide (0 < v))).map i256intoRaw).foldl max 0) ∧
    (isBuilder chain header wallet = false → r.validatorBribe = 0) := by
  obtain ⟨rwvb, tf, txs0, hbrb, hfold, hr⟩ :=
    wallet_report_ok_some chain header receipts caches wallet r hrep
  have hchar : isBuilder chain header wallet = true ↔
      (chain = Chain.mainnetChain ∧ ∃ b, wallet.builder = some b ∧ header.miner = b) := by
    unfold isBuilder
    cases hb : wallet.builder with
    | none => simp
    | some b =>
        simp only [Bool.and_eq_true, decide_eq_true_eq, Option.some.injEq]
        constructor
        · rintro ⟨h1, h2⟩; exact ⟨h1, b, rfl, h2⟩
        · rintro ⟨h1, b2, hb2, h2⟩; subst hb2; exact ⟨h1, h2⟩
  have hbribe : rwvb.2 = (if isBuilder chain header wallet then
      find_validator_bribe caches else 0) := by
    unfold builderRewardAndBribe at hbrb
    split at hbrb
    next hib =>
      split at hbrb
      next => cases hbrb
      next bf hbase =>
        split at hbrb
        next => cases hbrb
        next rw2 hcal =>
          cases hbrb
          rw [if_pos hib]
    next hib =>
      cases hbrb
      rw [if_neg hib]
  refine ⟨hchar, ?_, ?_⟩
  · intro hib
    rw [hr]
    simp only
    rw [hbribe, if_pos hib]
    unfold find_validator_bribe
    cases caches.getLast? with
    | none => rfl
    | some c => simp only [bribe_list_eq]
  · intro hib
    rw [hr]
    simp only
    rw [hbribe, hib]
    simp

/-- C4, witness: a three-recipient single-token airdrop sheet with one
negative entry is classified as an airdrop. -/
theorem c4_airdrop_iff_witness :
    is_shitcoin_airdrop [(1, [(7, -5)]), (2, [(7, 3)]), (3, [(7, 2)])] = true :=
  (c4_airdrop_iff [(1, [(7, -5)]), (2, [(7, 3)]), (3, [(7, 2)])]).mpr
    ⟨by decide, ⟨7, by decide⟩, by decide⟩

/-- A failed receipt. -/
def c9Receipt : Receipt :=
  { status := false, fromAddr := 1, toAddr := some 2, gasUsed := 21000,
    effectiveGasPrice := 10, transactionIndex := some 0, transactionHash := 3,
    l1Fee := none }

/-- C9, witness: the first component evaluated on a failed receipt with
a non-trivial trace, on a chain with no wrapped-native token. -/
theorem c9_failed_tx_witness :
    generate_pnl (Chain.chainId 999) c9Receipt
        (CallFrame.mk "CALL" 1 (some 2) (some 5) none none [] []) none = .ok [] :=
  c9_failed_tx.1 (Chain.chainId 999) c9Receipt
    (CallFrame.mk "CALL" 1 (some 2) (some 5) none none [] []) none rfl

/-! ## A concrete single-transaction scenario (used by witnesses) -/

/-- A wallet with primary address 1, no builder, no auxiliaries. -/
def sampleWallet : WalletWithContext := WalletWithContext.new "w" 1 none [] false someAlert

/-- A successful receipt from address 1, fee `10 × 2 = 20`. -/
def sampleReceipt : Receipt :=
  { status := true, fromAddr := 1, toAddr := none, gasUsed := 10,
    effectiveGasPrice := 2, transactionIndex := some 0, transactionHash := 5,
    l1Fee := none }

/-- A cache whose sheets credit account 1 with 5 native wei. -/
def sampleCache : BalanceChangesCache :=
  { filtered := [(1, [(NATIVE_TOKEN, 5)])], full := [(1, [(NATIVE_TOKEN, 5)])] }

/-- A header with a base fee. -/
def sampleHeader : Header := { number := 1, baseFeePerGas := some 1, miner := 9 }

/-- An unnamed chain (not mainnet, not Optimism-family, no
wrapped-native token relevant to `extract_ether`). -/
def sampleChain : Chain := Chain.chainId 42

/-- The report the scenario produces. -/
def sampleReport : PnlReport :=
  { txs := [⟨0, 5⟩], pnl := -15, builderReward := 0, validatorBribe := 0,
    tokenChanges := [] }

theorem sample_wallet_report :
    wallet_report sampleChain sampleHeader [sampleReceipt] [sampleCache] sampleWallet
      = .ok (some sampleReport) := by rfl

/-- C8, witness: in the concrete scenario the wallet is not a builder
and its reported validator bribe is zero. -/
theorem c8_validator_bribe_witness : sampleReport.validatorBribe = 0 :=
  (c8_validator_bribe sampleChain sampleHeader [sampleReceipt] [sampleCache] sampleWallet
    sampleReport sample_wallet_report).2.2 rfl

/-! ## C3 — the ether PnL formula -/

/-- The per-transaction merged delta of a wallet (`process_block` lines
126-127). -/
def mergedDelta (wallet : WalletWithContext) (p : Receipt × BalanceChangesCache) :
    BalanceChange :=
  merge_accounts p.2.filtered wallet.involvedWallets
    (if p.1.fromAddr = wallet.address then p.1.toAddr else none)

theorem removeTok_fst (bc : BalanceChange) (w : Address) :
    (removeTok bc w).1 = lookupTok bc w := by
  induction bc with
  | nil => rfl
  | cons e rest ih =>
      obtain ⟨t, x⟩ := e
      by_cases h : t = w
      · simp [removeTok, lookupTok, h]
      · simp [removeTok, lookupTok, h, ih]

theorem lookupTok_removeTok_ne (bc : BalanceChange) (w t : Address) (h : t ≠ w) :
    lookupTok (removeTok bc w).2 t = lookupTok bc t := by
  induction bc with
  | nil => rfl
  | cons e rest ih =>
      obtain ⟨t2, x⟩ := e
      by_cases h2 : t2 = w
      · subst h2
        have hne : ¬ (t2 = t) := fun hh => h hh.symm
        simp [removeTok, lookupTok, hne]
      · by_cases h3 : t2 = t
        · simp [removeTok, lookupTok, h2, h3, h]
        · simp [removeTok, lookupTok, h2, h3, h, ih]

theorem wrappedNative_ne_native (c : Chain) (w : Address)
    (h : c.wrappedNative = some w) : w ≠ NATIVE_TOKEN := by
  cases c with
  | chainId i => simp [Chain.wrappedNative, Chain.named] at h
  | chainNamed nc =>
      cases nc <;>
        (simp [Chain.wrappedNative, Chain.named, NamedChain.wrappedNativeToken] at h;
         subst h; decide)

/-- The ether sum returned by `extract_ether` is the native entry plus
the wrapped-native entry (each defaulting to zero). -/
theorem extractEther_fst (bc : BalanceChange) (chain : Chain) :
    (extractEther bc chain).1
      = lookupTokD bc NATIVE_TOKEN
        + (match chain.wrappedNative with
           | some w => lookupTokD bc w
           | none => 0) := by
  cases hw : chain.wrappedNative with
  | none => simp [extractEther, hw, lookupTokD, removeTok_fst, Int.add_comm]
  | some w =>
      have hne := wrappedNative_ne_native chain w hw
      simp only [extractEther, hw]
      rw [removeTok_fst, removeTok_fst,
        lookupTok_removeTok_ne bc w NATIVE_TOKEN (fun h => hne h.symm)]
      simp [lookupTokD, Int.add_comm]

/-- The fee/token-changes fold, evaluated: the accumulated fee is the
sum of the fees of exactly those transactions whose `from` is in the
involved set, and the accumulated token changes are the pointwise fold
of the per-transaction merged deltas. -/
theorem accumulate_fold_ok (chain : Chain) (wallet : WalletWithContext)
    (fees : Receipt → Int) :
    ∀ (l : List (Receipt × BalanceChangesCache)) (acc : Int × BalanceChange),
      (∀ p ∈ l, wallet.involvedWallets.contains p.1.fromAddr = true →
        calculate_tx_fee chain p.1 = .ok (fees p.1)) →
      l.foldlM (accumulate_tx chain wallet) acc
        = .ok
            (acc.1 + ((l.filter (fun p =>
                wallet.involvedWallets.contains p.1.fromAddr)).map (fun p => fees p.1)).sum,
             l.foldl (fun b p => bcExtend b (mergedDelta wallet p)) acc.2) := by
  intro l
  induction l with
  | nil => intro acc h; simp [List.foldlM_nil, pure, Except.pure]
  | cons p rest ih =>
      intro acc h
      rw [List.foldlM_cons]
      by_cases hc : wallet.involvedWallets.contains p.1.fromAddr = true
      · have hfee := h p (by simp) hc
        have hmem : p.1.fromAddr ∈ wallet.involvedWallets := by simpa using hc
        have hstep : accumulate_tx chain wallet acc p
            = .ok (acc.1 + fees p.1, bcExtend acc.2 (mergedDelta wallet p)) := by
          simp [accumulate_tx, hmem, hfee, mergedDelta]
        rw [hstep]
        simp only [Bind.bind, Except.bind]
        rw [ih (acc.1 + fees p.1, bcExtend acc.2 (mergedDelta wallet p))
          (fun q hq => h q (by simp [hq]))]
        simp only [List.filter_cons, hc, if_pos, List.map_cons, List.sum_cons, List.foldl_cons]
        rw [Int.add_assoc]
      · have hstep : accumulate_tx chain wallet acc p
            = .ok (acc.1 + 0, bcExtend acc.2 (mergedDelta wallet p)) := by
          unfold accumulate_tx
          rw [if_neg hc]
          rfl
        rw [hstep]
        simp only [Bind.bind, Except.bind]
        rw [ih (acc.1 + 0, bcExtend acc.2 (mergedDelta wallet p))
          (fun q hq => h q (by simp [hq]))]
        simp only [List.filter_cons, List.foldl_cons]
        rw [if_neg hc]
        simp

/-- C3: whenever a wallet's report is produced, its `pnl` equals the
native plus wrapped-native entries of the accumulated token changes
(the `extract_ether` sum), minus the total fee — the sum of the fees of
exactly those involved transactions whose receipt `from` lies in the
wallet's involved set — plus the builder reward reinterpreted as
signed; and the residual `token_changes` of the report is the
accumulated delta with the native and wrapped-native entries removed. -/
theorem c3_pnl_formula (chain : Chain) (header : Header) (receipts : List Receipt)
    (caches : List BalanceChangesCache) (wallet : WalletWithContext) (r : PnlReport)
    (fees : Receipt → Int)
    (hrep : wallet_report chain header receipts caches wallet = .ok (some r))
    (hf : ∀ p ∈ involvedTxs wallet receipts caches,
        wallet.involvedWallets.contains p.1.fromAddr = true →
        calculate_tx_fee chain p.1 = .ok (fees p.1)) :
    r.pnl
        = (lookupTokD (bcRetainNonZero ((involvedTxs wallet receipts caches).foldl
              (fun b p => bcExtend b (mergedDelta wallet p)) [])) NATIVE_TOKEN
           + (match chain.wrappedNative with
              | some w => lookupTokD (bcRetainNonZero ((involvedTxs wallet receipts caches).foldl
                  (fun b p => bcExtend b (mergedDelta wallet p)) [])) w
              | none => 0))
          - (((involvedTxs wallet receipts caches).filter (fun p =>
                wallet.involvedWallets.contains p.1.fromAddr)).map (fun p => fees p.1)).sum
          + i256fromRaw r.builderReward ∧
      r.tokenChanges
        = (extractEther (bcRetainNonZero ((involvedTxs wallet receipts caches).foldl
            (fun b p => bcExtend b (mergedDelta wallet p)) [])) chain).2 := by
  obtain ⟨rwvb, tf, txs0, hbrb, hfold, hr⟩ :=
    wallet_report_ok_some chain header receipts caches wallet r hrep
  rw [accumulate_fold_ok chain wallet fees (involvedTxs wallet receipts caches)
    ((0 : Int), ([] : BalanceChange)) hf] at hfold
  simp only [Except.ok.injEq] at hfold
  subst hfold
  refine ⟨?_, ?_⟩
  · rw [hr]
    simp only
    rw [extractEther_fst]
    simp only [Int.zero_add]
  · rw [hr]

/-- C3, witness: the pnl formula evaluated on the concrete scenario
(`pnl = 5 − 20 + 0 = −15`, with a constant fee function). -/
theorem c3_pnl_formula_witness :
    sampleReport.pnl
        = (lookupTokD (bcRetainNonZero ((involvedTxs sampleWallet [sampleReceipt]
              [sampleCache]).foldl
              (fun b p => bcExtend b (mergedDelta sampleWallet p)) [])) NATIVE_TOKEN
           + (match sampleChain.wrappedNative with
              | some w => lookupTokD (bcRetainNonZero ((involvedTxs sampleWallet [sampleReceipt]
                  [sampleCache]).foldl
                  (fun b p => bcExtend b (mergedDelta sampleWallet p)) [])) w
              | none => 0))
          - (((involvedTxs sampleWallet [sampleReceipt] [sampleCache]).filter (fun p =>
                sampleWallet.involvedWallets.contains p.1.fromAddr)).map
              (fun _ => (20 : Int))).sum
          + i256fromRaw sampleReport.builderReward :=
  (c3_pnl_formula sampleChain sampleHeader [sampleReceipt] [sampleCache] sampleWallet
    sampleReport (fun _ => (20 : Int)) sample_wallet_report
    (by
      intro p hp hcc
      have hl : involvedTxs sampleWallet [sampleReceipt] [sampleCache]
          = [(sampleReceipt, sampleCache)] := rfl
      rw [hl] at hp
      simp only [List.mem_singleton] at hp
      subst hp
      rfl)).1

/-! ## C5 — conservation of token sums -/

/-- Per-account sum of the entries of one token (robust to duplicate
keys; with the distinct keys the code maintains, it is the single
entry). -/
def accTokSum (bc : BalanceChange) (tok : Address) : Int :=
  ((bc.filter (fun te => decide (te.1 = tok))).map (fun te => te.2)).sum

/-- The sum of a token's deltas over all accounts of a sheet. -/
def tokenTotal (bcs : BalanceChanges) (tok : Address) : Int :=
  (bcs.map (fun e => accTokSum e.2 tok)).sum

/-- Net minted amount of a token: the summed (signed) values of its
transfers whose `from` endpoint is the zero address. -/
def minted (ts : List Transfer) (tok : Address) : Int :=
  ((ts.filter (fun t => decide (t.token = tok) && decide (t.src = 0))).map
    (fun t => i256fromRaw t.value)).sum

/-- Net burned amount of a token: the summed (signed) values of its
transfers whose `to` endpoint is the zero address. -/
def burned (ts : List Transfer) (tok : Address) : Int :=
  ((ts.filter (fun t => decide (t.token = tok) && decide (t.dst = 0))).map
    (fun t => i256fromRaw t.value)).sum

theorem accTokSum_addToken (bc : BalanceChange) (tok : Address) (v : Int) :
    accTokSum (addToken bc tok v) tok = accTokSum bc tok + v := by
  induction bc with
  | nil => simp [addToken, accTokSum]
  | cons e rest ih =>
      obtain ⟨t, x⟩ := e
      by_cases h : t = tok
      · subst h
        simp [addToken, accTokSum, List.filter_cons]
        omega
      · simp only [addToken, if_neg h]
        simp only [accTokSum, List.filter_cons] at ih ⊢
        by_cases h2 : decide (t = tok) = true
        · simp at h2; exact absurd h2 h
        · simp only [h2, Bool.false_eq_true, if_false]
          exact ih

theorem accTokSum_addToken_ne (bc : BalanceChange) (tok tok2 : Address) (v : Int)
    (h : tok2 ≠ tok) :
    accTokSum (addToken bc tok v) tok2 = accTokSum bc tok2 := by
  induction bc with
  | nil => simp [addToken, accTokSum, Ne.symm h]
  | cons e rest ih =>
      obtain ⟨t, x⟩ := e
      by_cases h2 : t = tok
      · subst h2
        simp [addToken, accTokSum, List.filter_cons, Ne.symm h]
      · simp only [addToken, if_neg h2]
        simp only [accTokSum, List.filter_cons] at ih ⊢
        by_cases h3 : decide (t = tok2) = true
        · simp only [h3, if_pos, List.map_cons, List.sum_cons]
          omega
        · simp only [h3, Bool.false_eq_true, if_false]
          exact ih

theorem tokenTotal_addAt (bcs : BalanceChanges) (a tok : Address) (v : Int) :
    tokenTotal (addAt bcs a tok v) tok = tokenTotal bcs tok + v := by
  induction bcs with
  | nil => simp [addAt, tokenTotal, accTokSum, addToken]
  | cons e rest ih =>
      obtain ⟨a2, bc⟩ := e
      by_cases h : a2 = a
      · subst h
        simp [addAt, tokenTotal, accTokSum_addToken]
        omega
      · simp only [addAt, if_neg h]
        simp only [tokenTotal, List.map_cons, List.sum_cons] at ih ⊢
        omega

theorem tokenTotal_addAt_ne (bcs : BalanceChanges) (a tok tok2 : Address) (v : Int)
    (h : tok2 ≠ tok) :
    tokenTotal (addAt bcs a tok v) tok2 = tokenTotal bcs tok2 := by
  induction bcs with
  | nil => simp [addAt, tokenTotal, accTokSum, addToken, Ne.symm h]
  | cons e rest ih =>
      obtain ⟨a2, bc⟩ := e
      by_cases h2 : a2 = a
      · subst h2
        simp [addAt, tokenTotal, accTokSum_addToken_ne _ _ _ _ h]
      · simp only [addAt, if_neg h2]
        simp only [tokenTotal, List.map_cons, List.sum_cons] at ih ⊢
        omega

/-- The change a single `append_transfer` makes to a token's total. -/
theorem tokenTotal_appendTransfer (b : BalanceChanges) (token src dst : Address)
    (val : Nat) (tok : Address) :
    tokenTotal (appendTransfer b token src dst val) tok
      = tokenTotal b tok
        + (if token = tok then
             (if dst ≠ 0 then i256fromRaw val else 0)
               - (if src ≠ 0 then i256fromRaw val else 0)
           else 0) := by
  unfold appendTransfer
  by_cases htok : token = tok
  · subst htok
    by_cases hs : src ≠ 0 <;> by_cases hd : dst ≠ 0 <;>
      simp [hs, hd, tokenTotal_addAt]
  · by_cases hs : src ≠ 0 <;> by_cases hd : dst ≠ 0 <;>
      simp [hs, hd, htok, tokenTotal_addAt_ne _ _ _ _ _ (fun hh => htok hh.symm)]

theorem tokenTotal_applyTransfers (tok : Address) :
    ∀ (ts : List Transfer) (b : BalanceChanges),
      tokenTotal (applyTransfers ts b) tok
        = tokenTotal b tok + minted ts tok - burned ts tok := by
  intro ts
  induction ts with
  | nil => intro b; simp [applyTransfers, minted, burned]
  | cons t rest ih =>
      intro b
      have hstep : applyTransfers (t :: rest) b
          = applyTransfers rest (appendTransfer b t.token t.src t.dst t.value) := rfl
      rw [hstep, ih, tokenTotal_appendTransfer]
      simp only [minted, burned, List.filter_cons]
      by_cases htok : t.token = tok
      · by_cases hs : t.src = 0 <;> by_cases hd : t.dst = 0 <;>
          simp [htok, hs, hd] <;> try omega
      · simp [htok]

theorem accTokSum_retainNonZero (bc : BalanceChange) (tok : Address) :
    accTokSum (bcRetainNonZero bc) tok = accTokSum bc tok := by
  induction bc with
  | nil => rfl
  | cons e rest ih =>
      obtain ⟨t, x⟩ := e
      by_cases hz : x = 0
      · subst hz
        simp only [bcRetainNonZero, List.filter_cons] at ih ⊢
        simp only [accTokSum, List.filter_cons] at ih ⊢
        by_cases ht : decide (t = tok) = true <;> simp_all [bcRetainNonZero, accTokSum]
      · simp only [bcRetainNonZero, List.filter_cons] at ih ⊢
        simp only [accTokSum, List.filter_cons] at ih ⊢
        by_cases ht : decide (t = tok) = true <;> simp_all [bcRetainNonZero, accTokSum]

theorem tokenTotal_retainNonZero (bcs : BalanceChanges) (tok : Address) :
    tokenTotal (bcsRetainNonZero bcs) tok = tokenTotal bcs tok := by
  induction bcs with
  | nil => rfl
  | cons e rest ih =>
      obtain ⟨a, bc⟩ := e
      simp only [bcsRetainNonZero, List.map_cons, List.filter_cons] at ih ⊢
      by_cases hemp : decide (bcRetainNonZero bc ≠ []) = true
      · simp only [hemp, if_pos]
        simp only [tokenTotal, List.map_cons, List.sum_cons] at ih ⊢
        rw [accTokSum_retainNonZero]
        omega
      · simp only [hemp, Bool.false_eq_true, if_false]
        have hbc : bcRetainNonZero bc = [] := by
          by_contra hne
          simp [hne] at hemp
        have hacc : accTokSum bc tok = 0 := by
          rw [← accTokSum_retainNonZero, hbc]
          rfl
        simp only [tokenTotal, List.map_cons, List.sum_cons] at ih ⊢
        omega

/-- C5: for every sheet the extractor produces without a filter, each
token's summed delta over all accounts equals net minted minus net
burned over the emitted transfers; in particular the sum is zero for a
token none of whose transfers touches the zero address. -/
theorem c5_conservation (chain : Chain) (receipt : Receipt) (trace : CallFrame)
    (weth : Address) (ts : List Transfer) (bcs : BalanceChanges) (tok : Address)
    (hs : receipt.status = true)
    (hw : chain.wrappedNative = some weth)
    (ht : walkFrames chain weth none [trace] = .ok ts)
    (hg : generate_pnl chain receipt trace none = .ok bcs) :
    tokenTotal bcs tok = minted ts tok - burned ts tok ∧
      ((∀ t ∈ ts, t.token = tok → (t.src ≠ 0 ∧ t.dst ≠ 0)) → tokenTotal bcs tok = 0) := by
  have hbcs : bcs = bcsRetainNonZero (applyTransfers ts []) := by
    simp only [generate_pnl, hs, hw, ht, Bool.not_true, Bool.false_eq_true, if_false,
      Except.ok.injEq] at hg
    exact hg.symm
  subst hbcs
  have hmain : tokenTotal (bcsRetainNonZero (applyTransfers ts [])) tok
      = minted ts tok - burned ts tok := by
    rw [tokenTotal_retainNonZero, tokenTotal_applyTransfers]
    simp [tokenTotal]
  refine ⟨hmain, fun hno => ?_⟩
  have hm : minted ts tok = 0 := by
    unfold minted
    have hfil : ts.filter (fun t => decide (t.token = tok) && decide (t.src = 0)) = [] := by
      rw [List.filter_eq_nil_iff]
      intro t hmem
      by_cases htok : t.token = tok
      · have := (hno t hmem htok).1
        simp [htok, this]
      · simp [htok]
    rw [hfil]
    rfl
  have hb : burned ts tok = 0 := by
    unfold burned
    have hfil : ts.filter (fun t => decide (t.token = tok) && decide (t.dst = 0)) = [] := by
      rw [List.filter_eq_nil_iff]
      intro t hmem
      by_cases htok : t.token = tok
      · have := (hno t hmem htok).2
        simp [htok, this]
      · simp [htok]
    rw [hfil]
    rfl
  rw [hmain, hm, hb]
  simp

/-- The pure-ether-send trace used by the C5 witness. -/
def c5Trace : CallFrame := .mk "CALL" 1 (some 2) (some 5) none none [] []

/-- A successful receipt for `c5Trace`. -/
def c5Receipt : Receipt :=
  { status := true, fromAddr := 1, toAddr := some 2, gasUsed := 1,
    effectiveGasPrice := 1, transactionIndex := some 0, transactionHash := 1,
    l1Fee := none }

/-- C5, witness: conservation evaluated on the pure ether send — the
native token sums to zero (`−5 + 5`), and its single transfer touches
no zero endpoint. -/
theorem c5_conservation_witness :
    tokenTotal [(1, [(NATIVE_TOKEN, -5)]), (2, [(NATIVE_TOKEN, 5)])] NATIVE_TOKEN
        = minted [⟨NATIVE_TOKEN, 1, 2, 5⟩] NATIVE_TOKEN
          - burned [⟨NATIVE_TOKEN, 1, 2, 5⟩] NATIVE_TOKEN ∧
      ((∀ t ∈ [(⟨NATIVE_TOKEN, 1, 2, 5⟩ : Transfer)], t.token = NATIVE_TOKEN →
          (t.src ≠ 0 ∧ t.dst ≠ 0)) →
        tokenTotal [(1, [(NATIVE_TOKEN, -5)]), (2, [(NATIVE_TOKEN, 5)])] NATIVE_TOKEN
          = 0) :=
  c5_conservation (Chain.chainNamed .mainnet) c5Receipt c5Trace
    (NamedChain.wrappedNativeToken .mainnet) [⟨NATIVE_TOKEN, 1, 2, 5⟩]
    [(1, [(NATIVE_TOKEN, -5)]), (2, [(NATIVE_TOKEN, 5)])] NATIVE_TOKEN rfl rfl
    (by
      simp [walkFrames, frameOwnTransfers, logsTransfers, nativeTransfer, isRelevant,
        c5Trace, NATIVE_TOKEN])
    (by
      have hwalk : walkFrames (Chain.chainNamed NamedChain.mainnet)
          (NamedChain.wrappedNativeToken .mainnet) none [c5Trace]
            = .ok [⟨NATIVE_TOKEN, 1, 2, 5⟩] := by
        simp [walkFrames, frameOwnTransfers, logsTransfers, nativeTransfer, isRelevant,
          c5Trace, NATIVE_TOKEN]
      simp [generate_pnl, c5Receipt, Chain.wrappedNative, Chain.named, hwalk,
        applyTransfers, appendTransfer, i256fromRaw, TWO256, TWO255, addAt, addToken,
        bcsRetainNonZero, bcRetainNonZero, NATIVE_TOKEN])

/-! ## C6 — reverted frames are isolated -/

/-- A frame the walk skips: `error` or `revert_reason` set. -/
def badFrame (f : CallFrame) : Bool :=
  f.error.isSome || f.revertReason.isSome

/-- Replace a frame's child list, keeping every other field. -/
def CallFrame.withCalls : CallFrame → List CallFrame → CallFrame
  | .mk t f toA v e r lg _, cs => .mk t f toA v e r lg cs

@[simp] theorem withCalls_error (f : CallFrame) (cs : List CallFrame) :
    (f.withCalls cs).error = f.error := by cases f; rfl

@[simp] theorem withCalls_revertReason (f : CallFrame) (cs : List CallFrame) :
    (f.withCalls cs).revertReason = f.revertReason := by cases f; rfl

@[simp] theorem withCalls_calls (f : CallFrame) (cs : List CallFrame) :
    (f.withCalls cs).calls = cs := by cases f; rfl

theorem frameOwnTransfers_withCalls (chain : Chain) (weth : Address)
    (only : Option (List Address)) (f : CallFrame) (cs : List CallFrame) :
    frameOwnTransfers chain weth only (f.withCalls cs)
      = frameOwnTransfers chain weth only f := by
  cases f; rfl

theorem walkFrames_nil (chain : Chain) (weth : Address) (only : Option (List Address)) :
    walkFrames chain weth only [] = .ok [] := by
  simp [walkFrames]

theorem walkFrames_cons (chain : Chain) (weth : Address) (only : Option (List Address))
    (f : CallFrame) (rest : List CallFrame) :
    walkFrames chain weth only (f :: rest)
      = if f.error.isSome || f.revertReason.isSome then
          walkFrames chain weth only rest
        else
          match frameOwnTransfers chain weth only f with
          | .error e => .error e
          | .ok own =>
              match walkFrames chain weth only (rest ++ f.calls) with
              | .error e => .error e
              | .ok restT => .ok (own ++ restT) := by
  rw [walkFrames]

/-- Removing a bad frame from anywhere in the queue does not change the
walk: the frame is skipped and its children are never enqueued. -/
theorem walk_elide_bad (chain : Chain) (weth : Address) (only : Option (List Address))
    (g : CallFrame) (hg : badFrame g = true) :
    ∀ (n : Nat) (q1 q2 : List CallFrame), framesSize (q1 ++ g :: q2) ≤ n →
      walkFrames chain weth only (q1 ++ g :: q2) = walkFrames chain weth only (q1 ++ q2) := by
  intro n
  induction n using Nat.strong_induction_on with
  | _ n ih =>
      intro q1 q2 hsize
      cases q1 with
      | nil =>
          simp only [List.nil_append]
          rw [walkFrames_cons]
          unfold badFrame at hg
          rw [hg]
          simp
      | cons f q1 =>
          simp only [List.cons_append]
          rw [walkFrames_cons, walkFrames_cons]
          by_cases hbad : (f.error.isSome || f.revertReason.isSome) = true
          · rw [if_pos hbad, if_pos hbad]
            have hlt : framesSize (q1 ++ g :: q2) < n := by
              have h1 : framesSize (f :: (q1 ++ g :: q2))
                  = CallFrame.size f + framesSize (q1 ++ g :: q2) := framesSize_cons f _
              have h2 := size_callframe_pos f
              simp only [List.cons_append] at hsize
              omega
            exact ih (framesSize (q1 ++ g :: q2)) hlt q1 q2 le_rfl
          · rw [if_neg hbad, if_neg hbad]
            have hlt : framesSize ((q1 ++ g :: q2) ++ f.calls) < n := by
              have h1 := framesSize_calls_lt f
              simp only [List.cons_append] at hsize
              rw [framesSize_append]
              rw [framesSize_cons] at hsize
              omega
            have hrec : walkFrames chain weth only ((q1 ++ g :: q2) ++ f.calls)
                = walkFrames chain weth only ((q1 ++ q2) ++ f.calls) := by
              have hassoc1 : (q1 ++ g :: q2) ++ f.calls = q1 ++ g :: (q2 ++ f.calls) := by
                simp
              have hassoc2 : (q1 ++ q2) ++ f.calls = q1 ++ (q2 ++ f.calls) := by simp
              rw [hassoc1, hassoc2]
              exact ih (framesSize ((q1 ++ g :: q2) ++ f.calls)) hlt q1 (q2 ++ f.calls)
                (le_of_eq (by simp [framesSize_append, framesSize_cons]))
            rw [hrec]

/-- `InsertsBad g f fNew`: `fNew` arises from `f` by inserting `g` as
one additional child at some position in the tree below `f` (all other
fields unchanged). -/
inductive InsertsBad (g : CallFrame) : CallFrame → CallFrame → Prop
  | here (f : CallFrame) (l1 l2 : List CallFrame) (h : f.calls = l1 ++ l2) :
      InsertsBad g f (f.withCalls (l1 ++ g :: l2))
  | deeper (f : CallFrame) (l1 l2 : List CallFrame) (c cNew : CallFrame)
      (h : f.calls = l1 ++ c :: l2) (hc : InsertsBad g c cNew) :
      InsertsBad g f (f.withCalls (l1 ++ cNew :: l2))

/-- Replacing one queued frame by a version with an extra bad frame
inserted does not change the walk. -/
theorem walk_insertsBad (chain : Chain) (weth : Address) (only : Option (List Address))
    (g : CallFrame) (hg : badFrame g = true) :
    ∀ (n : Nat) (q1 q2 : List CallFrame) (f fNew : CallFrame), InsertsBad g f fNew →
      framesSize (q1 ++ f :: q2) ≤ n →
      walkFrames chain weth only (q1 ++ fNew :: q2)
        = walkFrames chain weth only (q1 ++ f :: q2) := by
  intro n
  induction n using Nat.strong_induction_on with
  | _ n ih =>
      intro q1 q2 f fNew hIns hsize
      cases q1 with
      | nil =>
          simp only [List.nil_append] at hsize ⊢
          rw [walkFrames_cons, walkFrames_cons]
          cases hIns with
          | here f l1 l2 h =>
              by_cases hbadf : (f.error.isSome || f.revertReason.isSome) = true
              · rw [if_pos hbadf, if_pos (by simpa using hbadf)]
              · rw [if_neg hbadf, if_neg (by simpa using hbadf)]
                rw [frameOwnTransfers_withCalls]
                have htail : walkFrames chain weth only (q2 ++ (f.withCalls (l1 ++ g :: l2)).calls)
                    = walkFrames chain weth only (q2 ++ f.calls) := by
                  rw [withCalls_calls, h]
                  have h1 : q2 ++ (l1 ++ g :: l2) = (q2 ++ l1) ++ g :: l2 := by simp
                  have h2 : q2 ++ (l1 ++ l2) = (q2 ++ l1) ++ l2 := by simp
                  rw [h1, h2]
                  exact walk_elide_bad chain weth only g hg
                    (framesSize ((q2 ++ l1) ++ g :: l2)) (q2 ++ l1) l2 le_rfl
                rw [htail]
          | deeper f l1 l2 c cNew h hc =>
              by_cases hbadf : (f.error.isSome || f.revertReason.isSome) = true
              · rw [if_pos hbadf, if_pos (by simpa using hbadf)]
              · rw [if_neg hbadf, if_neg (by simpa using hbadf)]
                rw [frameOwnTransfers_withCalls]
                have htail : walkFrames chain weth only (q2 ++ (f.withCalls (l1 ++ cNew :: l2)).calls)
                    = walkFrames chain weth only (q2 ++ f.calls) := by
                  rw [withCalls_calls, h]
                  have h1 : q2 ++ (l1 ++ cNew :: l2) = (q2 ++ l1) ++ cNew :: l2 := by simp
                  have h2 : q2 ++ (l1 ++ c :: l2) = (q2 ++ l1) ++ c :: l2 := by simp
                  rw [h1, h2]
                  have hm : framesSize ((q2 ++ l1) ++ c :: l2) < n := by
                    have hfc : framesSize f.calls < CallFrame.size f := framesSize_calls_lt f
                    rw [h] at hfc
                    rw [framesSize_cons] at hsize
                    simp only [framesSize_append, framesSize_cons] at hfc ⊢
                    omega
                  exact ih (framesSize ((q2 ++ l1) ++ c :: l2)) hm (q2 ++ l1) l2 c cNew hc
                    le_rfl
                rw [htail]
      | cons f1 q1 =>
          simp only [List.cons_append] at hsize ⊢
          rw [walkFrames_cons, walkFrames_cons]
          by_cases hbad : (f1.error.isSome || f1.revertReason.isSome) = true
          · rw [if_pos hbad, if_pos hbad]
            have hlt : framesSize (q1 ++ f :: q2) < n := by
              rw [framesSize_cons] at hsize
              have := size_callframe_pos f1
              omega
            exact ih (framesSize (q1 ++ f :: q2)) hlt q1 q2 f fNew hIns le_rfl
          · rw [if_neg hbad, if_neg hbad]
            have hrec : walkFrames chain weth only ((q1 ++ fNew :: q2) ++ f1.calls)
                = walkFrames chain weth only ((q1 ++ f :: q2) ++ f1.calls) := by
              have h1 : (q1 ++ fNew :: q2) ++ f1.calls = q1 ++ fNew :: (q2 ++ f1.calls) := by
                simp
              have h2 : (q1 ++ f :: q2) ++ f1.calls = q1 ++ f :: (q2 ++ f1.calls) := by simp
              rw [h1, h2]
              have hlt : framesSize (q1 ++ f :: (q2 ++ f1.calls)) < n := by
                have hfc := framesSize_calls_lt f1
                rw [framesSize_cons] at hsize
                simp only [framesSize_append, framesSize_cons] at hsize ⊢
                omega
              exact ih (framesSize (q1 ++ f :: (q2 ++ f1.calls))) hlt q1 (q2 ++ f1.calls)
                f fNew hIns le_rfl
            rw [hrec]

/-- C6: inserting an additional child frame with a non-empty `error`
anywhere in the call tree (with arbitrary logs, value and children of
its own) does not change the sheet the extractor produces, with or
without an address filter. -/
theorem c6_reverted_isolation (chain : Chain) (receipt : Receipt)
    (only : Option (List Address)) (g trace traceNew : CallFrame)
    (hg : g.error.isSome = true) (hIns : InsertsBad g trace traceNew) :
    generate_pnl chain receipt traceNew only = generate_pnl chain receipt trace only := by
  unfold generate_pnl
  cases hst : receipt.status with
  | false => rfl
  | true =>
      simp only [Bool.not_true, Bool.false_eq_true, if_false]
      cases hw : chain.wrappedNative with
      | none => rfl
      | some weth =>
          have hwalk : walkFrames chain weth only [traceNew]
              = walkFrames chain weth only [trace] := by
            have := walk_insertsBad chain weth only g (by simp [badFrame, hg])
              (framesSize [trace]) [] [] trace traceNew hIns le_rfl
            simpa using this
          dsimp only
          rw [hwalk]

/-- The reverted child inserted by the C6 witness: it carries an error,
a value and a child of its own. -/
def c6Bad : CallFrame :=
  .mk "CALL" 3 (some 4) (some 7) (some "execution reverted") none []
    [.mk "CALL" 5 (some 6) (some 8) none none [] []]

/-- The original C6 witness trace. -/
def c6Trace : CallFrame := .mk "CALL" 1 (some 2) (some 5) none none [] []

/-- `c6Trace` with `c6Bad` inserted as a child. -/
def c6TraceNew : CallFrame := .mk "CALL" 1 (some 2) (some 5) none none [] [c6Bad]

/-- A successful receipt for the C6 witness. -/
def c6Receipt : Receipt :=
  { status := true, fromAddr := 1, toAddr := some 2, gasUsed := 1,
    effectiveGasPrice := 1, transactionIndex := some 0, transactionHash := 2,
    l1Fee := none }

/-- C6, witness: inserting the reverted child into the concrete trace
leaves the extracted sheet unchanged. -/
theorem c6_reverted_isolation_witness :
    generate_pnl (Chain.chainNamed .mainnet) c6Receipt c6TraceNew none
      = generate_pnl (Chain.chainNamed .mainnet) c6Receipt c6Trace none :=
  c6_reverted_isolation (Chain.chainNamed .mainnet) c6Receipt none c6Bad c6Trace c6TraceNew
    rfl (InsertsBad.here c6Trace [] [] rfl)

/-! ## C7 — correctness of the `only_addresses` filter -/

/-- A transfer the filter keeps: one of its endpoints is in `S`. -/
def keepB (S : List Address) (t : Transfer) : Bool :=
  S.contains t.src || S.contains t.dst

theorem logsTransfers_filter (chain : Chain) (weth : Address) (S : List Address) :
    ∀ logs : List LogEntry,
      logsTransfers chain weth (some S) logs
        = Except.map (List.filter (keepB S)) (logsTransfers chain weth none logs) := by
  intro logs
  induction logs with
  | nil => rfl
  | cons lg rest ih =>
      cases hlg : logTransfer chain weth lg with
      | error e =>
          simp [logsTransfers, hlg, Except.map, Bind.bind, Except.bind]
      | ok t? =>
          cases hrest : logsTransfers chain weth none rest with
          | error e =>
              rw [hrest] at ih
              simp only [Except.map] at ih
              cases t? <;>
                simp [logsTransfers, hlg, ih, hrest, Except.map, Bind.bind, Except.bind]
          | ok ts =>
              rw [hrest] at ih
              simp only [Except.map] at ih
              cases t? with
              | none =>
                  simp [logsTransfers, hlg, ih, hrest, Except.map, Bind.bind, Except.bind,
                    pure, Except.pure]
              | some t =>
                  simp only [logsTransfers, hlg, ih, hrest, Except.map, Bind.bind,
                    Except.bind, pure, Except.pure]
                  by_cases hk : keepB S t = true
                  · have hk2 : (isRelevant (some S) t.src || isRelevant (some S) t.dst)
                        = true := by simpa [isRelevant, keepB] using hk
                    have hmem : t.src ∈ S ∨ t.dst ∈ S := by simpa [keepB] using hk
                    simp [hk2, isRelevant, List.filter_cons, hk]
                    intro h
                    rcases hmem with h2 | h2
                    · exact absurd h2 h
                    · exact h2
                  · have hk2 : (isRelevant (some S) t.src || isRelevant (some S) t.dst)
                        = false := by
                      simpa [isRelevant, keepB] using hk
                    have hmem : ¬ (t.src ∈ S) ∧ ¬ (t.dst ∈ S) := by
                      simpa [keepB, not_or] using hk
                    simp [hk2, isRelevant, List.filter_cons, hk]
                    exact hmem

theorem nativeTransfer_filter (S : List Address) (f : CallFrame) :
    nativeTransfer (some S) f = (nativeTransfer none f).filter (keepB S) := by
  unfold nativeTransfer
  by_cases hv : f.value.getD 0 = 0
  · simp [hv]
  · simp only [hv, if_false]
    split <;> simp [isRelevant, keepB, List.filter_cons]

theorem frameOwnTransfers_filter (chain : Chain) (weth : Address) (S : List Address)
    (f : CallFrame) :
    frameOwnTransfers chain weth (some S) f
      = Except.map (List.filter (keepB S)) (frameOwnTransfers chain weth none f) := by
  unfold frameOwnTransfers
  cases hl : logsTransfers chain weth none f.logs with
  | error e =>
      have := logsTransfers_filter chain weth S f.logs
      rw [hl] at this
      simp only [Except.map] at this
      simp [this, Except.map, Bind.bind, Except.bind]
  | ok ls =>
      have := logsTransfers_filter chain weth S f.logs
      rw [hl] at this
      simp only [Except.map] at this
      simp [this, hl, Except.map, Bind.bind, Except.bind, pure, Except.pure,
        nativeTransfer_filter, List.filter_append]

theorem walk_filter (chain : Chain) (weth : Address) (S : List Address) :
    ∀ (n : Nat) (q : List CallFrame), framesSize q ≤ n →
      walkFrames chain weth (some S) q
        = Except.map (List.filter (keepB S)) (walkFrames chain weth none q) := by
  intro n
  induction n using Nat.strong_induction_on with
  | _ n ih =>
      intro q hsize
      cases q with
      | nil => rw [walkFrames_nil, walkFrames_nil]; rfl
      | cons f rest =>
          rw [walkFrames_cons, walkFrames_cons]
          by_cases hbad : (f.error.isSome || f.revertReason.isSome) = true
          · rw [if_pos hbad, if_pos hbad]
            have hlt : framesSize rest < n := by
              rw [framesSize_cons] at hsize
              have := size_callframe_pos f
              omega
            exact ih (framesSize rest) hlt rest le_rfl
          · rw [if_neg hbad, if_neg hbad]
            cases hown : frameOwnTransfers chain weth none f with
            | error e =>
                have hownS := frameOwnTransfers_filter chain weth S f
                rw [hown] at hownS
                simp only [Except.map] at hownS
                rw [hownS]
                rfl
            | ok own =>
                have hownS := frameOwnTransfers_filter chain weth S f
                rw [hown] at hownS
                simp only [Except.map] at hownS
                rw [hownS]
                have hlt : framesSize (rest ++ f.calls) < n := by
                  rw [framesSize_cons] at hsize
                  rw [framesSize_append]
                  have := framesSize_calls_lt f
                  omega
                have hrec := ih (framesSize (rest ++ f.calls)) hlt (rest ++ f.calls) le_rfl
                cases hwn : walkFrames chain weth none (rest ++ f.calls) with
                | error e =>
                    rw [hwn] at hrec
                    simp only [Except.map] at hrec
                    rw [hrec]
                    rfl
                | ok restT =>
                    rw [hwn] at hrec
                    simp only [Except.map] at hrec
                    rw [hrec]
                    simp [Except.map, List.filter_append]

theorem restrict_addAt_notin (S : List Address) (b : BalanceChanges) (a tok : Address)
    (v : Int) (h : S.contains a = false) :
    restrictAccounts S (addAt b a tok v) = restrictAccounts S b := by
  have hm : a ∉ S := by simpa using h
  induction b with
  | nil => simp [addAt, restrictAccounts, hm]
  | cons e rest ih =>
      obtain ⟨a2, bc⟩ := e
      by_cases h2 : a2 = a
      · subst h2
        simp [addAt, restrictAccounts, List.filter_cons, hm]
      · simp only [addAt, if_neg h2]
        simp only [restrictAccounts, List.filter_cons] at ih ⊢
        by_cases h3 : a2 ∈ S
        · simp [h3, ih]
        · simp [h3, ih]

theorem restrict_addAt_in (S : List Address) (b : BalanceChanges) (a tok : Address)
    (v : Int) (h : S.contains a = true) :
    restrictAccounts S (addAt b a tok v) = addAt (restrictAccounts S b) a tok v := by
  have hm : a ∈ S := by simpa using h
  induction b with
  | nil => simp [addAt, restrictAccounts, hm]
  | cons e rest ih =>
      obtain ⟨a2, bc⟩ := e
      by_cases h2 : a2 = a
      · subst h2
        simp [addAt, restrictAccounts, List.filter_cons, hm]
      · simp only [addAt, if_neg h2]
        simp only [restrictAccounts, List.filter_cons] at ih ⊢
        by_cases h3 : a2 ∈ S
        · simp only [h3, decide_True, if_pos, ih]
          simp [addAt, h2]
        · simp [h3, ih]

theorem restrict_addAt_cong (S : List Address) (b1 b2 : BalanceChanges) (a tok : Address)
    (v : Int) (h : restrictAccounts S b1 = restrictAccounts S b2) :
    restrictAccounts S (addAt b1 a tok v) = restrictAccounts S (addAt b2 a tok v) := by
  cases hc : S.contains a with
  | true => rw [restrict_addAt_in S b1 a tok v hc, restrict_addAt_in S b2 a tok v hc, h]
  | false => rw [restrict_addAt_notin S b1 a tok v hc, restrict_addAt_notin S b2 a tok v hc, h]

theorem restrict_appendTransfer_cong (S : List Address) (b1 b2 : BalanceChanges)
    (tok src dst : Address) (val : Nat)
    (h : restrictAccounts S b1 = restrictAccounts S b2) :
    restrictAccounts S (appendTransfer b1 tok src dst val)
      = restrictAccounts S (appendTransfer b2 tok src dst val) := by
  unfold appendTransfer
  by_cases hs : src ≠ 0 <;> by_cases hd : dst ≠ 0 <;>
    simp only [hs, hd, if_pos, if_neg, if_true, if_false, ite_not] <;>
    first
      | exact restrict_addAt_cong S _ _ _ _ _ (restrict_addAt_cong S _ _ _ _ _ h)
      | exact restrict_addAt_cong S _ _ _ _ _ h
      | exact h

theorem restrict_appendTransfer_notkeep (S : List Address) (b : BalanceChanges)
    (tok src dst : Address) (val : Nat)
    (hsrc : S.contains src = false) (hdst : S.contains dst = false) :
    restrictAccounts S (appendTransfer b tok src dst val) = restrictAccounts S b := by
  unfold appendTransfer
  by_cases hs : src ≠ 0 <;> by_cases hd : dst ≠ 0 <;>
    simp only [hs, hd, if_pos, if_neg, if_true, if_false, ite_not] <;>
    first
      | rw [restrict_addAt_notin S _ _ _ _ hdst, restrict_addAt_notin S _ _ _ _ hsrc]
      | rw [restrict_addAt_notin S _ _ _ _ hdst]
      | rw [restrict_addAt_notin S _ _ _ _ hsrc]

theorem restrict_applyTransfers (S : List Address) :
    ∀ (ts : List Transfer) (b1 b2 : BalanceChanges),
      restrictAccounts S b1 = restrictAccounts S b2 →
      restrictAccounts S (applyTransfers (ts.filter (keepB S)) b1)
        = restrictAccounts S (applyTransfers ts b2) := by
  intro ts
  induction ts with
  | nil => intro b1 b2 h; simpa [applyTransfers] using h
  | cons t rest ih =>
      intro b1 b2 h
      by_cases hk : keepB S t = true
      · rw [List.filter_cons_of_pos hk]
        have hstep : applyTransfers (t :: rest.filter (keepB S)) b1
            = applyTransfers (rest.filter (keepB S))
                (appendTransfer b1 t.token t.src t.dst t.value) := rfl
        have hstep2 : applyTransfers (t :: rest) b2
            = applyTransfers rest (appendTransfer b2 t.token t.src t.dst t.value) := rfl
        rw [hstep, hstep2]
        exact ih _ _ (restrict_appendTransfer_cong S b1 b2 _ _ _ _ h)
      · rw [List.filter_cons_of_neg (by simpa using hk)]
        have hstep2 : applyTransfers (t :: rest) b2
            = applyTransfers rest (appendTransfer b2 t.token t.src t.dst t.value) := rfl
        rw [hstep2]
        have hsrc : S.contains t.src = false := by
          have := hk
          simp [keepB] at this
          simpa using this.1
        have hdst : S.contains t.dst = false := by
          have := hk
          simp [keepB] at this
          simpa using this.2
        refine ih b1 (appendTransfer b2 t.token t.src t.dst t.value) ?_
        rw [restrict_appendTransfer_notkeep S b2 _ _ _ _ hsrc hdst]
        exact h

theorem restrict_retainNonZero (S : List Address) (bcs : BalanceChanges) :
    restrictAccounts S (bcsRetainNonZero bcs)
      = bcsRetainNonZero (restrictAccounts S bcs) := by
  induction bcs with
  | nil => rfl
  | cons e rest ih =>
      obtain ⟨a, bc⟩ := e
      simp only [bcsRetainNonZero, restrictAccounts, List.map_cons, List.filter_cons] at ih ⊢
      by_cases hmem : S.contains a = true
      · by_cases hemp : decide (bcRetainNonZero bc ≠ []) = true
        · simp only [hmem, hemp, if_pos, List.filter_cons] at ih ⊢
          simp_all [bcsRetainNonZero, restrictAccounts]
        · simp only [hmem, hemp, if_pos, Bool.false_eq_true, if_false, List.filter_cons]
            at ih ⊢
          simp_all [bcsRetainNonZero, restrictAccounts]
      · by_cases hemp : decide (bcRetainNonZero bc ≠ []) = true
        · simp only [hmem, hemp, Bool.false_eq_true, if_false, if_pos, List.filter_cons]
            at ih ⊢
          simp_all [bcsRetainNonZero, restrictAccounts]
        · simp only [hmem, hemp, Bool.false_eq_true, if_false] at ih ⊢
          simp_all [bcsRetainNonZero, restrictAccounts]

/-- C7: for every address set `S`, the sheet extracted with
`only_addresses = S`, restricted to account keys in `S`, equals the
sheet extracted without a filter, restricted to the same keys. -/
theorem c7_filter_correctness (chain : Chain) (receipt : Receipt) (trace : CallFrame)
    (S : List Address) (bcsS bcsN : BalanceChanges)
    (hS : generate_pnl chain receipt trace (some S) = .ok bcsS)
    (hN : generate_pnl chain receipt trace none = .ok bcsN) :
    restrictAccounts S bcsS = restrictAccounts S bcsN := by
  unfold generate_pnl at hS hN
  cases hst : receipt.status with
  | false =>
      rw [hst] at hS hN
      simp only [Bool.not_false, if_true, Except.ok.injEq] at hS hN
      rw [← hS, ← hN]
  | true =>
      rw [hst] at hS hN
      simp only [Bool.not_true, Bool.false_eq_true, if_false] at hS hN
      cases hw : chain.wrappedNative with
      | none => rw [hw] at hS; cases hS
      | some weth =>
          rw [hw] at hS hN
          dsimp only at hS hN
          cases hwn : walkFrames chain weth none [trace] with
          | error e => rw [hwn] at hN; cases hN
          | ok ts =>
              rw [hwn] at hN
              have hws := walk_filter chain weth S (framesSize [trace]) [trace] le_rfl
              rw [hwn] at hws
              simp only [Except.map] at hws
              rw [hws] at hS
              simp only [Except.ok.injEq] at hS hN
              rw [← hS, ← hN]
              rw [restrict_retainNonZero, restrict_retainNonZero]
              rw [restrict_applyTransfers S ts [] [] rfl]

/-- C7, witness: on the pure ether send with `S = {1}` the two
restricted sheets agree. -/
theorem c7_filter_correctness_witness :
    restrictAccounts [1] [(1, [(NATIVE_TOKEN, -5)]), (2, [(NATIVE_TOKEN, 5)])]
      = restrictAccounts [1] [(1, [(NATIVE_TOKEN, -5)]), (2, [(NATIVE_TOKEN, 5)])] :=
  c7_filter_correctness (Chain.chainNamed .mainnet) c6Receipt c6Trace [1]
    [(1, [(NATIVE_TOKEN, -5)]), (2, [(NATIVE_TOKEN, 5)])]
    [(1, [(NATIVE_TOKEN, -5)]), (2, [(NATIVE_TOKEN, 5)])]
    (by
      simp [generate_pnl, c6Receipt, Chain.wrappedNative, Chain.named, walkFrames,
        frameOwnTransfers, logsTransfers, nativeTransfer, isRelevant, c6Trace,
        applyTransfers, appendTransfer, i256fromRaw, TWO256, TWO255, addAt, addToken,
        bcsRetainNonZero, bcRetainNonZero, NATIVE_TOKEN])
    (by
      simp [generate_pnl, c6Receipt, Chain.wrappedNative, Chain.named, walkFrames,
        frameOwnTransfers, logsTransfers, nativeTransfer, isRelevant, c6Trace,
        applyTransfers, appendTransfer, i256fromRaw, TWO256, TWO255, addAt, addToken,
        bcsRetainNonZero, bcRetainNonZero, NATIVE_TOKEN])

end WalletWatcher



